import Mathlib

/-!
Verification of the nonogram hint-dispenser core (puzzle.rs, pass/crowded_clue.rs,
pass/continuous_range.rs, pass/discrete_range.rs, main.rs) against its
natural-language specification.

A line is modelled as a list of cells, each cell being a pair of independent
bits (filled, crossed), exactly as the Rust grid stores two parallel bit sets.
Reads outside the line evaluate to false bits; writes outside the line are
modelled as errors, mirroring the asserts in Grid::index which make the Rust
code panic on an out-of-bounds write.  Arithmetic that the Rust code performs
on usize with possible underflow (a panic in debug builds) is modelled with a
checked subtraction returning an error.
-/

/-- Cell model of parser::Cell, recovered from the two grid bits. -/
inductive RCell where
  | undecided
  | filled
  | crossed
  | impossible
deriving DecidableEq, Repr

/-- A line is a list of (filled-bit, crossed-bit) pairs, one per cell,
mirroring the two parallel FixedBitSets of the Rust grid restricted to one
row or column. -/
abbrev LineData : Type := List (Bool × Bool)

/-- Rust Line::len. -/
def lineLen (l : LineData) : Nat := List.length l

/-- Rust Line::is_filled: the filled bit of cell i (false outside the line). -/
def isFilledB (l : LineData) (i : Nat) : Bool :=
  match List.get? l i with
  | some c => c.1
  | none => false

/-- Rust Line::is_crossed: the crossed bit of cell i (false outside the line). -/
def isCrossedB (l : LineData) (i : Nat) : Bool :=
  match List.get? l i with
  | some c => c.2
  | none => false

/-- Rust Line::get, decoding the two bits into a Cell as Grid::get does. -/
def getCell (l : LineData) (i : Nat) : RCell :=
  match isFilledB l i, isCrossedB l i with
  | false, false => RCell.undecided
  | false, true => RCell.crossed
  | true, false => RCell.filled
  | true, true => RCell.impossible

/-- Iteration of a half-open index range a..b, as the Rust for loops do. -/
def idxRange (a b : Nat) : List Nat := List.range' a (b - a)

/-- Rust Line::range_contains_filled over a..b. -/
def rangeContainsFilledB (l : LineData) (a b : Nat) : Bool :=
  List.any (idxRange a b) (fun i => isFilledB l i)

/-- Rust Line::range_contains_unfilled over a..b. -/
def rangeContainsUnfilledB (l : LineData) (a b : Nat) : Bool :=
  List.any (idxRange a b) (fun i => ! isFilledB l i)

/-- Rust Line::range_contains_uncrossed over a..b. -/
def rangeContainsUncrossedB (l : LineData) (a b : Nat) : Bool :=
  List.any (idxRange a b) (fun i => ! isCrossedB l i)

/-- Checked usize subtraction: Rust a - b on usize, which panics (debug) on
underflow; the error models the panic. -/
def checkedSub (a b : Nat) : Except Unit Nat :=
  if b ≤ a then Except.ok (a - b) else Except.error ()

/-- Rust LineMut::fill(i) through a line view: sets the filled bit of cell i.
An out-of-bounds index is an error (Grid::index asserts in Rust). -/
def cellFillE (l : LineData) (i : Nat) : Except Unit LineData :=
  match List.get? l i with
  | some c => Except.ok (List.set l i (true, c.2))
  | none => Except.error ()

/-- Rust LineMut::cross(i): sets the crossed bit of cell i. -/
def cellCrossE (l : LineData) (i : Nat) : Except Unit LineData :=
  match List.get? l i with
  | some c => Except.ok (List.set l i (c.1, true))
  | none => Except.error ()

/-- Loop body of fill_range, iterating for an explicit number of steps so
that the definition is structural (the count b - a is exactly the number of
iterations of the Rust for loop). -/
def fillRangeGo (l : LineData) (a : Nat) : Nat → Except Unit LineData
  | 0 => Except.ok l
  | k + 1 =>
    match cellFillE l a with
    | Except.ok l1 => fillRangeGo l1 (a + 1) k
    | Except.error e => Except.error e

/-- Rust LineMut::fill_range(a..b). -/
def fillRangeE (l : LineData) (a b : Nat) : Except Unit LineData :=
  fillRangeGo l a (b - a)

/-- Loop body of cross_range, see fillRangeGo. -/
def crossRangeGo (l : LineData) (a : Nat) : Nat → Except Unit LineData
  | 0 => Except.ok l
  | k + 1 =>
    match cellCrossE l a with
    | Except.ok l1 => crossRangeGo l1 (a + 1) k
    | Except.error e => Except.error e

/-- Rust LineMut::cross_range(a..b). -/
def crossRangeE (l : LineData) (a b : Nat) : Except Unit LineData :=
  crossRangeGo l a (b - a)

/-!  Basic lemmas about the cell operations. -/

theorem cellFillE_length {l l' : LineData} {i : Nat}
    (h : cellFillE l i = Except.ok l') : List.length l' = List.length l := by
  unfold cellFillE at h
  cases hg : List.get? l i with
  | some c => rw [hg] at h; cases h; simp
  | none => rw [hg] at h; cases h

theorem cellFillE_filled {l l' : LineData} {i : Nat}
    (h : cellFillE l i = Except.ok l') (j : Nat) :
    isFilledB l' j = (isFilledB l j || j == i) := by
  unfold cellFillE at h
  cases hg : List.get? l i with
  | none => rw [hg] at h; cases h
  | some c =>
    rw [hg] at h; cases h
    rw [List.get?_eq_getElem?] at hg
    unfold isFilledB
    rw [List.get?_eq_getElem?, List.get?_eq_getElem?, List.getElem?_set]
    by_cases hij : i = j
    · subst hij
      have hlt : i < List.length l := (List.getElem?_eq_some.mp hg).1
      simp [hlt, hg]
    · have hji : (j == i) = false := beq_eq_false_iff_ne.mpr (Ne.symm hij)
      simp [hij, hji]

theorem cellFillE_crossed {l l' : LineData} {i : Nat}
    (h : cellFillE l i = Except.ok l') (j : Nat) :
    isCrossedB l' j = isCrossedB l j := by
  unfold cellFillE at h
  cases hg : List.get? l i with
  | none => rw [hg] at h; cases h
  | some c =>
    rw [hg] at h; cases h
    rw [List.get?_eq_getElem?] at hg
    unfold isCrossedB
    rw [List.get?_eq_getElem?, List.get?_eq_getElem?, List.getElem?_set]
    by_cases hij : i = j
    · subst hij
      have hlt : i < List.length l := (List.getElem?_eq_some.mp hg).1
      rcases (List.getElem?_eq_some.mp hg) with ⟨h1, h2⟩
      simp [hlt, hg, h2]
    · simp [hij]

theorem cellCrossE_length {l l' : LineData} {i : Nat}
    (h : cellCrossE l i = Except.ok l') : List.length l' = List.length l := by
  unfold cellCrossE at h
  cases hg : List.get? l i with
  | some c => rw [hg] at h; cases h; simp
  | none => rw [hg] at h; cases h

theorem cellCrossE_crossed {l l' : LineData} {i : Nat}
    (h : cellCrossE l i = Except.ok l') (j : Nat) :
    isCrossedB l' j = (isCrossedB l j || j == i) := by
  unfold cellCrossE at h
  cases hg : List.get? l i with
  | none => rw [hg] at h; cases h
  | some c =>
    rw [hg] at h; cases h
    rw [List.get?_eq_getElem?] at hg
    unfold isCrossedB
    rw [List.get?_eq_getElem?, List.get?_eq_getElem?, List.getElem?_set]
    by_cases hij : i = j
    · subst hij
      have hlt : i < List.length l := (List.getElem?_eq_some.mp hg).1
      rcases (List.getElem?_eq_some.mp hg) with ⟨h1, h2⟩
      simp [hlt, hg, h2]
    · have hji : (j == i) = false := beq_eq_false_iff_ne.mpr (Ne.symm hij)
      simp [hij, hji]

theorem cellCrossE_filled {l l' : LineData} {i : Nat}
    (h : cellCrossE l i = Except.ok l') (j : Nat) :
    isFilledB l' j = isFilledB l j := by
  unfold cellCrossE at h
  cases hg : List.get? l i with
  | none => rw [hg] at h; cases h
  | some c =>
    rw [hg] at h; cases h
    rw [List.get?_eq_getElem?] at hg
    unfold isFilledB
    rw [List.get?_eq_getElem?, List.get?_eq_getElem?, List.getElem?_set]
    by_cases hij : i = j
    · subst hij
      have hlt : i < List.length l := (List.getElem?_eq_some.mp hg).1
      rcases (List.getElem?_eq_some.mp hg) with ⟨h1, h2⟩
      simp [hlt, hg, h2]
    · simp [hij]

theorem mem_idxRange {j a b : Nat} : j ∈ idxRange a b ↔ a ≤ j ∧ j < b := by
  unfold idxRange
  rw [List.mem_range'_1]
  omega

theorem rangeContainsUnfilledB_eq_false {l : LineData} {a b : Nat} :
    rangeContainsUnfilledB l a b = false ↔
      ∀ j, a ≤ j → j < b → isFilledB l j = true := by
  unfold rangeContainsUnfilledB
  rw [Bool.eq_false_iff]
  constructor
  · intro h j hja hjb
    by_contra hf
    exact h (List.any_eq_true.mpr ⟨j, mem_idxRange.mpr ⟨hja, hjb⟩, by
      simp [Bool.eq_false_iff.mpr hf]⟩)
  · intro h hc
    rcases List.any_eq_true.mp hc with ⟨j, hjm, hj⟩
    rcases mem_idxRange.mp hjm with ⟨hja, hjb⟩
    rw [h j hja hjb] at hj
    simp at hj

theorem rangeContainsUncrossedB_eq_false {l : LineData} {a b : Nat} :
    rangeContainsUncrossedB l a b = false ↔
      ∀ j, a ≤ j → j < b → isCrossedB l j = true := by
  unfold rangeContainsUncrossedB
  rw [Bool.eq_false_iff]
  constructor
  · intro h j hja hjb
    by_contra hf
    exact h (List.any_eq_true.mpr ⟨j, mem_idxRange.mpr ⟨hja, hjb⟩, by
      simp [Bool.eq_false_iff.mpr hf]⟩)
  · intro h hc
    rcases List.any_eq_true.mp hc with ⟨j, hjm, hj⟩
    rcases mem_idxRange.mp hjm with ⟨hja, hjb⟩
    rw [h j hja hjb] at hj
    simp at hj

theorem rangeContainsFilledB_eq_true {l : LineData} {a b : Nat} :
    rangeContainsFilledB l a b = true ↔
      ∃ j, a ≤ j ∧ j < b ∧ isFilledB l j = true := by
  unfold rangeContainsFilledB
  rw [List.any_eq_true]
  constructor
  · rintro ⟨j, hjm, hj⟩
    rcases mem_idxRange.mp hjm with ⟨hja, hjb⟩
    exact ⟨j, hja, hjb, hj⟩
  · rintro ⟨j, hja, hjb, hj⟩
    exact ⟨j, mem_idxRange.mpr ⟨hja, hjb⟩, hj⟩

theorem fillRangeGo_spec {k : Nat} {l l' : LineData} {a : Nat}
    (h : fillRangeGo l a k = Except.ok l') :
    List.length l' = List.length l ∧
    (∀ j, isCrossedB l' j = isCrossedB l j) ∧
    (∀ j, isFilledB l' j =
      (isFilledB l j || (decide (a ≤ j) && decide (j < a + k)))) := by
  induction k generalizing l a with
  | zero =>
    cases h
    refine ⟨rfl, fun j => rfl, fun j => ?_⟩
    rw [Bool.eq_iff_iff]
    simp only [Bool.or_eq_true, Bool.and_eq_true, decide_eq_true_eq]
    by_cases hf : isFilledB l' j = true
    · simp [hf]
    · simp [hf]
      try omega
  | succ k ih =>
    unfold fillRangeGo at h
    cases hc : cellFillE l a with
    | error e => rw [hc] at h; cases h
    | ok l1 =>
      rw [hc] at h
      rcases ih h with ⟨hlen, hcr, hfi⟩
      refine ⟨hlen.trans (cellFillE_length hc), fun j => ?_, fun j => ?_⟩
      · rw [hcr j, cellFillE_crossed hc j]
      · rw [hfi j, cellFillE_filled hc j]
        rw [Bool.eq_iff_iff]
        simp only [Bool.or_eq_true, Bool.and_eq_true, beq_iff_eq,
          decide_eq_true_eq]
        by_cases hf : isFilledB l j = true
        · simp [hf]
        · simp [hf]
          omega

theorem crossRangeGo_spec {k : Nat} {l l' : LineData} {a : Nat}
    (h : crossRangeGo l a k = Except.ok l') :
    List.length l' = List.length l ∧
    (∀ j, isFilledB l' j = isFilledB l j) ∧
    (∀ j, isCrossedB l' j =
      (isCrossedB l j || (decide (a ≤ j) && decide (j < a + k)))) := by
  induction k generalizing l a with
  | zero =>
    cases h
    refine ⟨rfl, fun j => rfl, fun j => ?_⟩
    rw [Bool.eq_iff_iff]
    simp only [Bool.or_eq_true, Bool.and_eq_true, decide_eq_true_eq]
    by_cases hf : isCrossedB l' j = true
    · simp [hf]
    · simp [hf]
      try omega
  | succ k ih =>
    unfold crossRangeGo at h
    cases hc : cellCrossE l a with
    | error e => rw [hc] at h; cases h
    | ok l1 =>
      rw [hc] at h
      rcases ih h with ⟨hlen, hfi, hcr⟩
      refine ⟨hlen.trans (cellCrossE_length hc), fun j => ?_, fun j => ?_⟩
      · rw [hfi j, cellCrossE_filled hc j]
      · rw [hcr j, cellCrossE_crossed hc j]
        rw [Bool.eq_iff_iff]
        simp only [Bool.or_eq_true, Bool.and_eq_true, beq_iff_eq,
          decide_eq_true_eq]
        by_cases hf : isCrossedB l j = true
        · simp [hf]
        · simp [hf]
          omega

theorem fillRangeE_spec {l l' : LineData} {a b : Nat}
    (h : fillRangeE l a b = Except.ok l') :
    List.length l' = List.length l ∧
    (∀ j, isCrossedB l' j = isCrossedB l j) ∧
    (∀ j, isFilledB l' j =
      (isFilledB l j || (decide (a ≤ j) && decide (j < b)))) := by
  rcases fillRangeGo_spec h with ⟨h1, h2, h3⟩
  refine ⟨h1, h2, fun j => ?_⟩
  rw [h3 j]
  rw [Bool.eq_iff_iff]
  simp only [Bool.or_eq_true, Bool.and_eq_true, decide_eq_true_eq]
  by_cases hf : isFilledB l j = true
  · simp [hf]
  · simp [hf]
    omega

theorem crossRangeE_spec {l l' : LineData} {a b : Nat}
    (h : crossRangeE l a b = Except.ok l') :
    List.length l' = List.length l ∧
    (∀ j, isFilledB l' j = isFilledB l j) ∧
    (∀ j, isCrossedB l' j =
      (isCrossedB l j || (decide (a ≤ j) && decide (j < b)))) := by
  rcases crossRangeGo_spec h with ⟨h1, h2, h3⟩
  refine ⟨h1, h2, fun j => ?_⟩
  rw [h3 j]
  rw [Bool.eq_iff_iff]
  simp only [Bool.or_eq_true, Bool.and_eq_true, decide_eq_true_eq]
  by_cases hf : isCrossedB l j = true
  · simp [hf]
  · simp [hf]
    omega

/-!
Rust Line::bump_start (puzzle.rs).  The first while loop pushes the tentative
start past crossed cells inside the window, the second pulls past filled cells
just after the window.  The loops are given as structural recursion on an
explicit fuel which is at least the number of iterations the Rust loop
performs, so the definitions compute.
-/

/-- First while loop of bump_start.  Returns (start, focus) at loop exit. -/
def bumpCrossPushGo (l : LineData) (n : Nat) : Nat → Nat → Nat → Nat × Nat
  | 0, start, focus => (start, focus)
  | fuel + 1, start, focus =>
    if focus < start + n then
      if focus < List.length l ∧ isCrossedB l focus = true then
        bumpCrossPushGo l n fuel (focus + 1) (focus + 1)
      else
        bumpCrossPushGo l n fuel start (focus + 1)
    else (start, focus)

/-- Second while loop of bump_start: skip filled cells rightwards. -/
def skipFilledGo (l : LineData) : Nat → Nat → Nat
  | 0, focus => focus
  | fuel + 1, focus =>
    if focus < List.length l ∧ isFilledB l focus = true then
      skipFilledGo l fuel (focus + 1)
    else focus

/-- Boundary step of bump_start: if the cell before start is filled, the run
cannot begin at start, so start is advanced by 1 before scanning. -/
def bumpPre (l : LineData) (start : Nat) : Nat :=
  if 0 < start ∧ isFilledB l (start - 1) = true then start + 1 else start

/-- Rust Line::bump_start(start, number). -/
def bumpStart (l : LineData) (start n : Nat) : Nat :=
  skipFilledGo l (List.length l)
    (bumpCrossPushGo l n (bumpPre l start + n + List.length l)
      (bumpPre l start) (bumpPre l start)).2 - n

theorem bumpCrossPushGo_spec {l : LineData} {n : Nat} :
    ∀ fuel start focus,
    max (start + n) (List.length l + n) ≤ focus + fuel →
    focus ≤ start + n →
    (∀ p, start ≤ p → p < focus → p < List.length l →
      isCrossedB l p = false) →
    (bumpCrossPushGo l n fuel start focus).2 =
        (bumpCrossPushGo l n fuel start focus).1 + n ∧
      (∀ p, (bumpCrossPushGo l n fuel start focus).1 ≤ p →
        p < (bumpCrossPushGo l n fuel start focus).1 + n →
        p < List.length l → isCrossedB l p = false) := by
  intro fuel
  induction fuel with
  | zero =>
    intro start focus hmax hle hinv
    have hfe : focus = start + n := by omega
    unfold bumpCrossPushGo
    subst hfe
    exact ⟨rfl, fun p h1 h2 h3 => hinv p h1 h2 h3⟩
  | succ fuel ih =>
    intro start focus hmax hle hinv
    unfold bumpCrossPushGo
    by_cases h1 : focus < start + n
    · rw [if_pos h1]
      by_cases h2 : focus < List.length l ∧ isCrossedB l focus = true
      · rw [if_pos h2]
        refine ih (focus + 1) (focus + 1) (by omega) (by omega) ?_
        intro p hp1 hp2
        omega
      · rw [if_neg h2]
        refine ih start (focus + 1) (by omega) (by omega) ?_
        intro p hp1 hp2 hp3
        by_cases hpf : p = focus
        · subst hpf
          rcases Decidable.not_and_iff_or_not.mp h2 with hc | hc
          · omega
          · exact Bool.eq_false_iff.mpr hc
        · exact hinv p hp1 (by omega) hp3
    · rw [if_neg h1]
      have hfe : focus = start + n := by omega
      subst hfe
      exact ⟨rfl, fun p hq1 hq2 hq3 => hinv p hq1 hq2 hq3⟩

theorem bumpCrossPushGo_fix {l : LineData} {n : Nat} :
    ∀ fuel start focus,
    start + n ≤ focus + fuel →
    focus ≤ start + n →
    (∀ p, focus ≤ p → p < start + n → p < List.length l →
      isCrossedB l p = false) →
    bumpCrossPushGo l n fuel start focus = (start, start + n) := by
  intro fuel
  induction fuel with
  | zero =>
    intro start focus hmax hle hfree
    have hfe : focus = start + n := by omega
    unfold bumpCrossPushGo
    rw [hfe]
  | succ fuel ih =>
    intro start focus hmax hle hfree
    unfold bumpCrossPushGo
    by_cases h1 : focus < start + n
    · rw [if_pos h1]
      have h2 : ¬ (focus < List.length l ∧ isCrossedB l focus = true) := by
        rintro ⟨ha, hb⟩
        rw [hfree focus (Nat.le_refl _) h1 ha] at hb
        cases hb
      rw [if_neg h2]
      exact ih start (focus + 1) (by omega) (by omega)
        (fun p hp1 hp2 hp3 => hfree p (by omega) hp2 hp3)
    · rw [if_neg h1]
      have hfe : focus = start + n := by omega
      rw [hfe]

theorem skipFilledGo_spec {l : LineData} :
    ∀ fuel focus, List.length l ≤ focus + fuel →
    focus ≤ skipFilledGo l fuel focus ∧
    (∀ p, focus ≤ p → p < skipFilledGo l fuel focus →
      isFilledB l p = true) ∧
    ¬ (skipFilledGo l fuel focus < List.length l ∧
      isFilledB l (skipFilledGo l fuel focus) = true) := by
  intro fuel
  induction fuel with
  | zero =>
    intro focus hf
    unfold skipFilledGo
    exact ⟨Nat.le_refl _, fun p h1 h2 => absurd h2 (by omega), by omega⟩
  | succ fuel ih =>
    intro focus hf
    unfold skipFilledGo
    by_cases h1 : focus < List.length l ∧ isFilledB l focus = true
    · rw [if_pos h1]
      rcases ih (focus + 1) (by omega) with ⟨ha, hb, hc⟩
      refine ⟨by omega, fun p hp1 hp2 => ?_, hc⟩
      by_cases hpf : p = focus
      · subst hpf
        exact h1.2
      · exact hb p (by omega) hp2
    · rw [if_neg h1]
      exact ⟨Nat.le_refl _, fun p hp1 hp2 => absurd hp2 (by omega), h1⟩

theorem skipFilledGo_fix {l : LineData} (fuel focus : Nat)
    (h : ¬ (focus < List.length l ∧ isFilledB l focus = true)) :
    skipFilledGo l fuel focus = focus := by
  cases fuel with
  | zero => rfl
  | succ fuel =>
    unfold skipFilledGo
    rw [if_neg h]

theorem bumpStart_window (l : LineData) (s n : Nat) :
    (∀ p, bumpStart l s n ≤ p → p < bumpStart l s n + n →
      p < List.length l → (isCrossedB l p = false ∨ isFilledB l p = true)) ∧
    ¬ (bumpStart l s n + n < List.length l ∧
       isFilledB l (bumpStart l s n + n) = true) := by
  obtain ⟨st, f1, hpf⟩ : ∃ st f1,
      bumpCrossPushGo l n (bumpPre l s + n + List.length l)
        (bumpPre l s) (bumpPre l s) = (st, f1) := ⟨_, _, rfl⟩
  have hspec := @bumpCrossPushGo_spec l n
    (bumpPre l s + n + List.length l) (bumpPre l s) (bumpPre l s)
    (by omega) (by omega) (fun p h1 h2 h3 => absurd h2 (by omega))
  rw [hpf] at hspec
  rcases hspec with ⟨hf1, hW⟩
  have hskip := @skipFilledGo_spec l (List.length l) f1 (by omega)
  rcases hskip with ⟨hs1, hs2, hs3⟩
  have hbs : bumpStart l s n = skipFilledGo l (List.length l) f1 - n := by
    unfold bumpStart
    rw [hpf]
  have hnle : n ≤ skipFilledGo l (List.length l) f1 := by omega
  have hrn : bumpStart l s n + n = skipFilledGo l (List.length l) f1 := by
    omega
  constructor
  · intro p hp1 hp2 hp3
    by_cases hpc : p < f1
    · left
      refine hW p ?_ (by omega) hp3
      omega
    · right
      exact hs2 p (by omega) (by omega)
  · rw [hrn]
    exact hs3

/-- C6 counterexample: on the line ##... (cells 0 and 1 filled, length 5),
bump_start(1, 2) returns 2, but bump_start(2, 2) returns 3: the boundary
check only skips one filled predecessor, so bump_start is not idempotent as
claimed. -/
theorem bumpStart_not_idempotent_cex :
    bumpStart [(true, false), (true, false), (false, false), (false, false),
        (false, false)]
      (bumpStart [(true, false), (true, false), (false, false), (false, false),
        (false, false)] 1 2) 2 ≠
    bumpStart [(true, false), (true, false), (false, false), (false, false),
        (false, false)] 1 2 := by
  decide

/-- C6 amended: bump_start is idempotent provided the line has no Impossible
cell (no cell both filled and crossed) and the cell immediately before the
first result is not filled.  The counterexample shows the second condition is
necessary, and a line with an Impossible cell (pulled into the scan window)
breaks the first. -/
theorem bumpStart_idempotent (l : LineData) (s n : Nat)
    (hclean : ∀ i, ¬ (isFilledB l i = true ∧ isCrossedB l i = true))
    (hpre : bumpStart l s n = 0 ∨
      isFilledB l (bumpStart l s n - 1) = false) :
    bumpStart l (bumpStart l s n) n = bumpStart l s n := by
  obtain ⟨hW, hstop⟩ := bumpStart_window l s n
  have hpre' : bumpPre l (bumpStart l s n) = bumpStart l s n := by
    unfold bumpPre
    rcases hpre with h | h
    · rw [if_neg]
      rintro ⟨ha, hb⟩
      omega
    · rw [if_neg]
      rintro ⟨ha, hb⟩
      rw [h] at hb
      cases hb
  have hfree : ∀ p, bumpStart l s n ≤ p → p < bumpStart l s n + n →
      p < List.length l → isCrossedB l p = false := by
    intro p hp1 hp2 hp3
    rcases hW p hp1 hp2 hp3 with hc | hfill
    · exact hc
    · cases hcv : isCrossedB l p with
      | false => rfl
      | true => exact absurd ⟨hfill, hcv⟩ (hclean p)
  have hfix := @bumpCrossPushGo_fix l n
    (bumpStart l s n + n + List.length l) (bumpStart l s n) (bumpStart l s n)
    (by omega) (by omega) hfree
  generalize hgen : bumpStart l s n = r at hpre' hfix hstop ⊢
  unfold bumpStart
  rw [hpre', hfix]
  show skipFilledGo l (List.length l) (r + n) - n = r
  rw [skipFilledGo_fix (List.length l) (r + n) hstop]
  omega

/-- Witness for the amended C6 theorem, on the line of length 10 with a cross
at index 4 (from the bump_start_one_crossed unit test): bump_start(2, 3) = 5
and bump_start(5, 3) = 5. -/
theorem bumpStart_idempotent_witness :
    (∀ i, ¬ (isFilledB [(false, false), (false, false), (false, false),
        (false, false), (false, true), (false, false), (false, false),
        (false, false), (false, false), (false, false)] i = true ∧
      isCrossedB [(false, false), (false, false), (false, false),
        (false, false), (false, true), (false, false), (false, false),
        (false, false), (false, false), (false, false)] i = true)) ∧
    bumpStart [(false, false), (false, false), (false, false), (false, false),
      (false, true), (false, false), (false, false), (false, false),
      (false, false), (false, false)]
      (bumpStart [(false, false), (false, false), (false, false),
        (false, false), (false, true), (false, false), (false, false),
        (false, false), (false, false), (false, false)] 2 3) 3 =
    bumpStart [(false, false), (false, false), (false, false), (false, false),
      (false, true), (false, false), (false, false), (false, false),
      (false, false), (false, false)] 2 3 := by
  refine ⟨?_, ?_⟩
  · intro i
    rintro ⟨ha, hb⟩
    by_cases hi : i < 10
    · interval_cases i <;> simp_all [isFilledB, isCrossedB]
    · unfold isFilledB at ha
      rw [List.get?_eq_getElem?] at ha
      rw [List.getElem?_eq_none (by simpa using Nat.le_of_not_lt hi)] at ha
      cases ha
  · exact bumpStart_idempotent _ 2 3
      (by
        intro i
        rintro ⟨ha, hb⟩
        by_cases hi : i < 10
        · interval_cases i <;> simp_all [isFilledB, isCrossedB]
        · unfold isFilledB at ha
          rw [List.get?_eq_getElem?] at ha
          rw [List.getElem?_eq_none (by simpa using Nat.le_of_not_lt hi)] at ha
          cases ha)
      (by right; decide)

/-!
CrowdedClue pass (pass/crowded_clue.rs).  The Rust code computes
freedom = line.len() - (sum + clue.len() - 1) with unchecked usize
arithmetic; both subtractions are modelled with checkedSub, so an underflow
(a panic in a debug build) shows up as an error.
-/

instance {e a : Type} [DecidableEq e] [DecidableEq a] :
    DecidableEq (Except e a) := fun x y =>
  match x, y with
  | Except.error e1, Except.error e2 =>
    if h : e1 = e2 then Decidable.isTrue (by rw [h])
    else Decidable.isFalse (by intro hc; cases hc; exact h rfl)
  | Except.error _, Except.ok _ => Decidable.isFalse (by intro hc; cases hc)
  | Except.ok _, Except.error _ => Decidable.isFalse (by intro hc; cases hc)
  | Except.ok a1, Except.ok a2 =>
    if h : a1 = a2 then Decidable.isTrue (by rw [h])
    else Decidable.isFalse (by intro hc; cases hc; exact h rfl)

/-- Hint CrowdedClue { kernel_start, kernel_end }. -/
structure CrowdedClue where
  kernel_start : Nat
  kernel_end : Nat
deriving DecidableEq, Repr

/-- LineHint::check for CrowdedClue. -/
def crowdedClueCheck (h : CrowdedClue) (l : LineData) : Bool :=
  rangeContainsUnfilledB l h.kernel_start h.kernel_end

/-- LineHint::apply for CrowdedClue. -/
def crowdedClueApplyE (h : CrowdedClue) (l : LineData) : Except Unit LineData :=
  fillRangeE l h.kernel_start h.kernel_end

/-- Per-run loop of CrowdedCluePass::run: for each clue number, if
number > freedom, emit the kernel hint when its check holds; x0 advances by
number + 1. -/
def crowdedClueGo (l : LineData) (freedom : Nat) :
    List Nat → Nat → List CrowdedClue
  | [], _ => []
  | number :: rest, x0 =>
    let tail := crowdedClueGo l freedom rest (x0 + number + 1)
    if freedom < number then
      if crowdedClueCheck ⟨x0 + freedom, x0 + number⟩ l then
        ⟨x0 + freedom, x0 + number⟩ :: tail
      else tail
    else tail

/-- CrowdedCluePass::run. -/
def crowdedCluePassRun (clue : List Nat) (l : LineData) :
    Except Unit (List CrowdedClue) :=
  match checkedSub (List.sum clue + List.length clue) 1 with
  | Except.error e => Except.error e
  | Except.ok total =>
    match checkedSub (List.length l) total with
    | Except.error e => Except.error e
    | Except.ok freedom => Except.ok (crowdedClueGo l freedom clue 0)

theorem crowdedCluePassRun_underflow (clue : List Nat) (l : LineData)
    (h : List.length l + 1 < List.sum clue + List.length clue) :
    crowdedCluePassRun clue l = Except.error () := by
  unfold crowdedCluePassRun checkedSub
  have h1 : 1 ≤ List.sum clue + List.length clue := by omega
  rw [if_pos h1]
  have h2 : ¬ (List.sum clue + List.length clue - 1 ≤ List.length l) := by
    omega
  simp [h2]

/-- C3: for a line of length N = 1 and clue [2] we have sum + k - 1 = 2 > 1,
and CrowdedCluePass::run underflows the usize subtraction
line.len() - (sum + k - 1) instead of reporting the line as ill-formed: in a
debug build it panics (the modelled error); in a release build the
subtraction wraps, freedom becomes huge, and the pass silently emits no hint
and no report.  Evaluation of the embedded pass at the failing input. -/
theorem crowdedCluePassRun_illFormed_eval :
    crowdedCluePassRun [2] [(false, false)] = Except.error () := by
  decide

/-!
ContinuousRange pass (pass/continuous_range.rs).  ClueExt::range_starts and
ClueExt::range_ends are embedded with the same push/pull loops as the source;
range_ends works on isize, modelled with Int.  The usize subtractions that can
underflow (focus - number, *e - 1 in the turf_ends iterator, and
range_end - number for the kernel) are modelled with checkedSub, and the
assert in range_ends with an explicit error, so any Rust panic shows up as an
error value.
-/

/-- Inner while loop of range_starts: pushing the tentative start past
crossed cells; the loop keeps focus < line.len(), so fuel len - focus is
exactly enough.  Returns (start, focus) at exit. -/
def rsScanGo (l : LineData) (n : Nat) : Nat → Nat → Nat → Nat × Nat
  | 0, start, focus => (start, focus)
  | fuel + 1, start, focus =>
    if focus < min (start + n) (List.length l) then
      if isCrossedB l focus = true then rsScanGo l n fuel (focus + 1) (focus + 1)
      else rsScanGo l n fuel start (focus + 1)
    else (start, focus)

/-- Per-clue-number loop of ClueExt::range_starts. -/
def rangeStartsGo (l : LineData) : List Nat → Nat → Except Unit (List Nat)
  | [], _ => Except.ok []
  | n :: rest, start =>
    match rsScanGo l n (List.length l - start) start start with
    | (_, f1) =>
      let f2 := skipFilledGo l (List.length l) f1
      match checkedSub f2 n with
      | Except.error e => Except.error e
      | Except.ok rs =>
        match rangeStartsGo l rest (f2 + 1) with
        | Except.error e => Except.error e
        | Except.ok rest' => Except.ok (rs :: rest')

/-- ClueExt::range_starts. -/
def rangeStartsE (clue : List Nat) (l : LineData) : Except Unit (List Nat) :=
  rangeStartsGo l clue 0

/-- Inner while loop of range_ends (on isize): pushing last down past crossed
cells.  Returns (last, focus) at exit; fuel (focus+1).toNat is enough since
the loop needs focus >= 0 and decrements focus. -/
def reScanGo (l : LineData) (n : Int) : Nat → Int → Int → Int × Int
  | 0, last, focus => (last, focus)
  | fuel + 1, last, focus =>
    if 0 ≤ focus ∧ last + 1 ≤ focus + n then
      if isCrossedB l (Int.toNat focus) = true then
        reScanGo l n fuel (focus - 1) (focus - 1)
      else reScanGo l n fuel last (focus - 1)
    else (last, focus)

/-- Second while loop of range_ends: pulling focus down past filled cells. -/
def rePullGo (l : LineData) : Nat → Int → Int
  | 0, focus => focus
  | fuel + 1, focus =>
    if 0 ≤ focus ∧ isFilledB l (Int.toNat focus) = true then
      rePullGo l fuel (focus - 1)
    else focus

/-- Per-clue-number loop of ClueExt::range_ends, iterating over the clue in
reverse; the list returned is in the push order of the source, i.e. the end
of the LAST run comes first. -/
def rangeEndsGo (l : LineData) : List Nat → Int → Except Unit (List Nat)
  | [], _ => Except.ok []
  | n :: rest, last =>
    match reScanGo l (n : Int) (Int.toNat (last + 1)) last last with
    | (_, f1) =>
      let f2 := rePullGo l (Int.toNat (f1 + 1)) f1
      if f2 + n + 1 ≤ (List.length l : Int) then
        match rangeEndsGo l rest (f2 - 1) with
        | Except.error e => Except.error e
        | Except.ok rest' => Except.ok (Int.toNat (f2 + 1 + n) :: rest')
      else Except.error ()

/-- ClueExt::range_ends. -/
def rangeEndsE (clue : List Nat) (l : LineData) : Except Unit (List Nat) :=
  rangeEndsGo l (List.reverse clue) ((List.length l : Int) - 1)

/-- The ContinuousRangeHint variants, with the fields of the source. -/
inductive CRHint where
  | unreachable (reachable_start reachable_end : Nat)
  | kernel (kernel_start kernel_end : Nat)
  | termination (range_start range_end : Nat)
  | turfNearSingleton (found_start kernel_start reachable_end turf_end : Nat)
  | turfFarSingleton (turf_start reachable_start kernel_end found_end : Nat)
  | turfPair
      (turf_start reachable_start found_start found_end reachable_end
        turf_end : Nat)
  | turfSingleton (turf_start reachable_start reachable_end turf_end : Nat)
deriving DecidableEq, Repr

/-- LineHint::check for ContinuousRangeHint. -/
def crCheck (h : CRHint) (l : LineData) : Bool :=
  match h with
  | CRHint.unreachable rs re =>
    rangeContainsUncrossedB l 0 rs ||
      rangeContainsUncrossedB l re (List.length l)
  | CRHint.kernel ks ke => rangeContainsUnfilledB l ks ke
  | CRHint.termination rs re =>
    (decide (0 < rs) && ! isCrossedB l (rs - 1)) ||
      (decide (re < List.length l) && ! isCrossedB l re)
  | CRHint.turfNearSingleton fs ks re te =>
    rangeContainsUnfilledB l fs ks || rangeContainsUncrossedB l re te
  | CRHint.turfFarSingleton ts rs ke fe =>
    rangeContainsUncrossedB l ts rs || rangeContainsUnfilledB l ke fe
  | CRHint.turfPair ts rs fs fe re te =>
    rangeContainsUncrossedB l ts rs ||
      rangeContainsUnfilledB l (fs + 1) (fe - 1) ||
      rangeContainsUncrossedB l re te
  | CRHint.turfSingleton ts rs re te =>
    rangeContainsUncrossedB l ts rs || rangeContainsUncrossedB l re te

/-- LineHint::apply for ContinuousRangeHint. -/
def crApplyE (h : CRHint) (l : LineData) : Except Unit LineData :=
  match h with
  | CRHint.unreachable rs re => do
    let l1 ← crossRangeE l 0 rs
    crossRangeE l1 re (List.length l)
  | CRHint.kernel ks ke => fillRangeE l ks ke
  | CRHint.termination rs re => do
    let l1 ← if 0 < rs then cellCrossE l (rs - 1) else Except.ok l
    if re < List.length l1 then cellCrossE l1 re else Except.ok l1
  | CRHint.turfNearSingleton fs ks re te => do
    let l1 ← fillRangeE l fs ks
    crossRangeE l1 re te
  | CRHint.turfFarSingleton ts rs ke fe => do
    let l1 ← crossRangeE l ts rs
    fillRangeE l1 ke fe
  | CRHint.turfPair ts rs fs fe re te => do
    let l1 ← crossRangeE l ts rs
    let l2 ← fillRangeE l1 (fs + 1) (fe - 1)
    crossRangeE l2 re te
  | CRHint.turfSingleton ts rs re te => do
    let l1 ← crossRangeE l ts rs
    crossRangeE l1 re te

/-- Rust (a..b).find(|x| line.is_filled(*x)). -/
def findFilledFwd (l : LineData) (a b : Nat) : Option Nat :=
  List.find? (fun i => isFilledB l i) (idxRange a b)

/-- Rust (a..b).rev().find(|x| line.is_filled(*x)). -/
def findFilledRev (l : LineData) (a b : Nat) : Option Nat :=
  List.find? (fun i => isFilledB l i) (List.reverse (idxRange a b))

/-- Loop over runs of ContinuousRangePass::run, consuming the five zipped
lists (numbers, range_starts, forward range_ends, turf_starts, turf_ends),
emitting per-run hints in source order. -/
def contLoopGo (l : LineData) :
    List Nat → List Nat → List Nat → List Nat → List Nat →
      Except Unit (List CRHint)
  | n :: ns, rs :: rss, re :: res, ts :: tss, te :: tes =>
    if re < rs + 2 * n then
      match checkedSub re n with
      | Except.error e => Except.error e
      | Except.ok ks =>
        let ke := rs + n
        let kHints :=
          if crCheck (CRHint.kernel ks ke) l then [CRHint.kernel ks ke]
          else []
        if ks = rs ∧ ke = re then
          let tHints :=
            if crCheck (CRHint.termination rs re) l then
              [CRHint.termination rs re]
            else []
          match contLoopGo l ns rss res tss tes with
          | Except.error e => Except.error e
          | Except.ok rest => Except.ok (kHints ++ tHints ++ rest)
        else
          let nearHints :=
            match findFilledFwd l ts ks with
            | some fs =>
              if crCheck (CRHint.turfNearSingleton fs ks (fs + n) te) l then
                [CRHint.turfNearSingleton fs ks (fs + n) te]
              else []
            | none => []
          match
            (match findFilledRev l ke te with
             | some fe =>
               match checkedSub fe n with
               | Except.error e => Except.error e
               | Except.ok frs =>
                 Except.ok
                   (if crCheck (CRHint.turfFarSingleton ts frs ke fe) l then
                     [CRHint.turfFarSingleton ts frs ke fe]
                   else [])
             | none => Except.ok []) with
          | Except.error e => Except.error e
          | Except.ok farHints =>
            match contLoopGo l ns rss res tss tes with
            | Except.error e => Except.error e
            | Except.ok rest =>
              Except.ok (kHints ++ nearHints ++ farHints ++ rest)
    else
      match findFilledFwd l ts te with
      | some fs =>
        let hintsHere :=
          match findFilledRev l (fs + 1) te with
          | some fe =>
            if crCheck (CRHint.turfPair ts (fe - n) fs fe (fs + n) te) l then
              [CRHint.turfPair ts (fe - n) fs fe (fs + n) te]
            else []
          | none =>
            if crCheck (CRHint.turfSingleton ts (fs - n) (fs + n) te) l then
              [CRHint.turfSingleton ts (fs - n) (fs + n) te]
            else []
        match contLoopGo l ns rss res tss tes with
        | Except.error e => Except.error e
        | Except.ok rest => Except.ok (hintsHere ++ rest)
      | none => contLoopGo l ns rss res tss tes
  | _, _, _, _, _ => Except.ok []

/-- ContinuousRangePass::run.  The indexing range_starts[0] / range_ends[0]
panics on an empty clue, modelled as an error; the lazy *e - 1 of the
turf_ends iterator is modelled with checkedSub over the whole list (a panic
anywhere aborts the run either way). -/
def continuousRangePassRun (clue : List Nat) (l : LineData) :
    Except Unit (List CRHint) :=
  match rangeStartsE clue l with
  | Except.error e => Except.error e
  | Except.ok rss =>
    match rangeEndsE clue l with
    | Except.error e => Except.error e
    | Except.ok resStored =>
      match rss, resStored with
      | rs0 :: _, re0 :: _ =>
        let uHints :=
          if crCheck (CRHint.unreachable rs0 re0) l then
            [CRHint.unreachable rs0 re0]
          else []
        let fEnds := List.reverse resStored
        match List.mapM (fun e => checkedSub e 1) (List.drop 1 rss) with
        | Except.error e => Except.error e
        | Except.ok tMinus =>
          let turfEnds :=
            List.map (fun p => min p.2 p.1)
              (List.zip (tMinus ++ [List.length l + 1]) fEnds)
          let turfStarts :=
            List.map (fun p => max p.1 p.2)
              (List.zip (0 :: List.map (fun e => e + 1) fEnds) rss)
          match contLoopGo l clue rss fEnds turfStarts turfEnds with
          | Except.error e => Except.error e
          | Except.ok runHints => Except.ok (uHints ++ runHints)
      | _, _ => Except.error ()

/-- Driver-side application of a list of continuous-range hints, in list
order (LinePassExt::apply applies every collected hint). -/
def crApplyAllE (hs : List CRHint) (l : LineData) : Except Unit LineData :=
  List.foldlM (fun acc h => crApplyE h acc) l hs

/-- Scenario line of spec section 8.3: N = 7, clue [2], cell 4 filled. -/
def scen3Line : LineData :=
  [(false, false), (false, false), (false, false), (false, false),
   (true, false), (false, false), (false, false)]

/-- C9 counterexample: on the line N = 7, clue [2] with only cell 4 filled,
the claim says range_starts = [3], range_ends = [5], and that applying the
ContinuousRange hints produces xxx##xx.  In fact range_starts = [0] (the fill
pull only fires on a filled cell directly after the scanned window, and cell
4 is not adjacent to window [0,2)), range_ends = [6], and the emitted hints
cross only cells 0, 1 and 6. -/
theorem continuousRange_scenario3_cex :
    ¬ (rangeStartsE [2] scen3Line = Except.ok [3] ∧
       rangeEndsE [2] scen3Line = Except.ok [5] ∧
       (match continuousRangePassRun [2] scen3Line with
        | Except.ok hs => crApplyAllE hs scen3Line
        | Except.error e => Except.error e) =
         Except.ok [(false, true), (false, true), (false, true),
           (true, false), (true, false), (false, true), (false, true)]) := by
  decide

/-- C9 amended: on the line N = 7, clue [2], cell 4 filled, the
continuous-range computation yields range_starts = [0] and range_ends = [6];
one pass run emits Unreachable(0,6) and TurfSingleton(0,2,6,6), whose
application crosses cells 0, 1 and 6; a second run crosses cell 2
(Unreachable(3,6)); a third run emits no hints, so the fixpoint of the pass
on this line is xxx.#.x with cells 3 and 5 still undecided (not xxx##xx). -/
theorem continuousRange_scenario3_actual :
    rangeStartsE [2] scen3Line = Except.ok [0] ∧
    rangeEndsE [2] scen3Line = Except.ok [6] ∧
    continuousRangePassRun [2] scen3Line =
      Except.ok [CRHint.unreachable 0 6, CRHint.turfSingleton 0 2 6 6] ∧
    (match continuousRangePassRun [2] scen3Line with
     | Except.ok hs => crApplyAllE hs scen3Line
     | Except.error e => Except.error e) =
      Except.ok [(false, true), (false, true), (false, false),
        (false, false), (true, false), (false, false), (false, true)] ∧
    (match continuousRangePassRun [2]
        [(false, true), (false, true), (false, false), (false, false),
         (true, false), (false, false), (false, true)] with
     | Except.ok hs => crApplyAllE hs
        [(false, true), (false, true), (false, false), (false, false),
         (true, false), (false, false), (false, true)]
     | Except.error e => Except.error e) =
      Except.ok [(false, true), (false, true), (false, true), (false, false),
        (true, false), (false, false), (false, true)] ∧
    continuousRangePassRun [2]
      [(false, true), (false, true), (false, true), (false, false),
       (true, false), (false, false), (false, true)] = Except.ok [] := by
  decide

/-- Line for the TurfPair off-by-one: N = 7, clue [3], cells 2 and 4
filled. -/
def turfPairLine : LineData :=
  [(false, false), (false, false), (true, false), (false, false),
   (true, false), (false, false), (false, false)]

/-- C8: with range [0,7) for the run of length 3 (0 + 2*3 <= 7, no kernel)
and filled turf cells 2 and 4, the pass emits
TurfPair{turf 0..7, reachable 1..5, found 2..4}; its apply fills the range
found_start+1 .. found_end-1 = 3..3, which is EMPTY, so cell 3 — strictly
between the two filled cells 2 and 4 and required to be filled by the claim
(and filled by the parallel Freedom2 implementation in main.rs, which fills
x0+1..x1) — stays undecided.  Evaluation of the embedded pass at the failing
input. -/
theorem continuousRange_turfPair_gap_eval :
    continuousRangePassRun [3] turfPairLine =
      Except.ok [CRHint.turfPair 0 1 2 4 5 7] ∧
    (match continuousRangePassRun [3] turfPairLine with
     | Except.ok hs => crApplyAllE hs turfPairLine
     | Except.error e => Except.error e) =
      Except.ok [(false, true), (false, false), (true, false), (false, false),
        (true, false), (false, true), (false, true)] ∧
    isFilledB [(false, true), (false, false), (true, false), (false, false),
        (true, false), (false, true), (false, true)] 3 = false := by
  decide

/-!
DiscreteRange pass (pass/discrete_range.rs).  The placement iterator Iter is
a state machine scanned once over the line; the depth-first recursion of
Possibilities::solve enumerates placements in lexicographic order and calls
Possibilities::positions on each complete placement.  It is embedded here as
the list of complete placements (in the same depth-first order) and a fold of
the positions update over that list.
-/

/-- State of the placement iterator (discrete_range.rs State). -/
inductive PState where
  | pEmpty (n : Nat)
  | pFilled (m n : Nat)
  | pEnd
deriving DecidableEq, Repr

/-- State::cell, with the match arms of the source. -/
def pStateCell (s : PState) (c : RCell) : PState :=
  match s, c with
  | PState.pEmpty _, RCell.crossed => PState.pEmpty 0
  | PState.pEmpty n, RCell.undecided => PState.pEmpty (n + 1)
  | PState.pEmpty n, RCell.filled => PState.pFilled 1 (n + 1)
  | PState.pFilled m n, RCell.undecided => PState.pFilled (m + 1) (n + 1)
  | PState.pFilled m n, RCell.filled => PState.pFilled (m + 1) (n + 1)
  | PState.pFilled _ _, RCell.crossed => PState.pEnd
  | PState.pEnd, _ => PState.pEnd
  | PState.pEmpty _, RCell.impossible => PState.pEnd
  | PState.pFilled _ _, RCell.impossible => PState.pEnd

/-- The n counter of a state (cells scanned since the last reset). -/
def pCount : PState → Nat
  | PState.pEmpty n => n
  | PState.pFilled _ n => n
  | PState.pEnd => 0

/-- One scan of Iter::next over focus in self.focus..line.len(), collecting
every emitted start.  The iterator state persists across next() calls, so
collecting all yields in a single scan is the sequence of yields of the Rust
iterator.  Structural on the remaining cell count k = len - focus. -/
def pGuard (n : Nat) (st : PState) : PState :=
  match st with
  | PState.pFilled m _ => if n < m then PState.pEnd else st
  | _ => st

/-- The emit condition of Iter::next. -/
def pEmit (n : Nat) (st : PState) : Bool :=
  match st with
  | PState.pFilled _ nn => decide (n ≤ nn)
  | PState.pEmpty nn => decide (n ≤ nn)
  | PState.pEnd => false

def iterScanGo (l : LineData) (n : Nat) : Nat → Nat → PState → List Nat
  | 0, _, _ => []
  | k + 1, focus, st =>
    if pEmit n (pGuard n (pStateCell st (getCell l focus))) &&
        (decide (List.length l ≤ focus + 1) || ! isFilledB l (focus + 1))
    then (focus + 1 - n) ::
      iterScanGo l n k (focus + 1) (pGuard n (pStateCell st (getCell l focus)))
    else iterScanGo l n k (focus + 1) (pGuard n (pStateCell st (getCell l focus)))

/-- All starts yielded by Iter::new(line, number, start). -/
def iterStarts (l : LineData) (n start : Nat) : List Nat :=
  iterScanGo l n (List.length l - start) start (PState.pEmpty 0)

/-- One depth level of the depth-first enumeration: extend every partial
placement (positions so far, next admissible start) by every start the
iterator yields for the next number. -/
def placementsStep (l : LineData) (acc : List (List Nat × Nat)) (n : Nat) :
    List (List Nat × Nat) :=
  List.flatMap acc (fun pc =>
    List.map (fun s => (pc.1 ++ [s], s + n + 1)) (iterStarts l n pc.2))

/-- The complete placements enumerated by Possibilities::solve, in
depth-first order: all runs placed, and no filled cell after the last run
(the range_contains_filled(start..len) leaf check). -/
def discretePlacements (l : LineData) (clue : List Nat) : List (List Nat) :=
  List.map Prod.fst
    (List.filter (fun pc => ! rangeContainsFilledB l pc.2 (List.length l))
      (List.foldl (placementsStep l) [([], 0)] clue))

/-- Possibilities: the two masks and the per-cell run-index mask. -/
structure Poss where
  filled : List Bool
  crossed : List Bool
  cell_numbers : List Bool
deriving DecidableEq, Repr

/-- Possibilities::new: both masks all-ones, cell_numbers all zero. -/
def possInit (lineLen clueLen : Nat) : Poss :=
  ⟨List.replicate lineLen true, List.replicate lineLen true,
    List.replicate (lineLen * clueLen) false⟩

/-- Mask read (FixedBitSet::contains). -/
def bitGet (v : List Bool) (i : Nat) : Bool :=
  match List.get? v i with
  | some b => b
  | none => false

/-- Set every bit in a..b to val (the per-index set loops of positions). -/
def bitsSetRange (v : List Bool) (a b : Nat) (val : Bool) : List Bool :=
  List.foldl (fun acc j => List.set acc j val) v (idxRange a b)

/-- The cell_numbers.put(j * clue.len() + number_index) loop over a run. -/
def cellNumbersPut (cn : List Bool) (k i s n : Nat) : List Bool :=
  List.foldl (fun acc j => List.set acc (j * k + i) true) cn (idxRange s (s + n))

/-- Loop of Possibilities::positions over clue.iter().enumerate()
zipped with positions, then the trailing filled-clear up to filled.len(). -/
def posUpdateGo (k : Nat) :
    Nat → Nat → List Bool → List Bool → List Bool → List Nat → List Nat →
      List Bool × List Bool × List Bool
  | i, oldEnd, f, c, cn, s :: ps, n :: cl =>
    posUpdateGo k (i + 1) (s + n)
      (bitsSetRange f oldEnd s false)
      (bitsSetRange c s (s + n) false)
      (cellNumbersPut cn k i s n) ps cl
  | _, oldEnd, f, c, cn, _, _ =>
    (bitsSetRange f oldEnd (List.length f) false, c, cn)

/-- Possibilities::positions. -/
def posUpdate (clue : List Nat) (p : Poss) (positions : List Nat) : Poss :=
  match posUpdateGo (List.length clue) 0 0 p.filled p.crossed p.cell_numbers
      positions clue with
  | (f, c, cn) => ⟨f, c, cn⟩

/-- Possibilities::solve: fold the positions update over every complete
placement of the depth-first enumeration. -/
def discreteSolve (l : LineData) (clue : List Nat) : Poss :=
  List.foldl (posUpdate clue)
    (possInit (List.length l) (List.length clue))
    (discretePlacements l clue)

/-- DiscreteRangeHint: CrossedRun / FilledRun (the end index is exclusive;
numbers is the run-index set of the FilledRun, metadata only). -/
inductive DRHint where
  | crossedRun (start endIdx : Nat)
  | filledRun (start endIdx : Nat) (numbers : List Bool)
deriving DecidableEq, Repr

/-- LineHint::check for DiscreteRangeHint. -/
def drCheck (h : DRHint) (l : LineData) : Bool :=
  match h with
  | DRHint.crossedRun s e => rangeContainsUncrossedB l s e
  | DRHint.filledRun s e _ => rangeContainsUnfilledB l s e

/-- LineHint::apply for DiscreteRangeHint. -/
def drApplyE (h : DRHint) (l : LineData) : Except Unit LineData :=
  match h with
  | DRHint.crossedRun s e => crossRangeE l s e
  | DRHint.filledRun s e _ => fillRangeE l s e

/-- Inner skip of Possibilities::hints: while i < filled.len() and neither
mask bit is set, advance. -/
def skipUndecGo (f c : List Bool) : Nat → Nat → Nat
  | 0, i => i
  | fuel + 1, i =>
    if i < List.length f ∧ bitGet f i = false ∧ bitGet c i = false then
      skipUndecGo f c fuel (i + 1)
    else i

/-- Inner skip of Possibilities::hints: while i < bound and the mask bit is
set, advance. -/
def skipTrueGo (bound : Nat) (v : List Bool) : Nat → Nat → Nat
  | 0, i => i
  | fuel + 1, i =>
    if i < bound ∧ bitGet v i = true then skipTrueGo bound v fuel (i + 1)
    else i

/-- Outer loop of Possibilities::hints.  One fuel unit per outer iteration;
fuel filled.len() + 1 is enough because each iteration advances i (the loop
of the source would not terminate otherwise, which cannot happen for the
masks built by solve, whose lengths equal the line length). -/
def drHintsGo (l : LineData) (clue : List Nat) (p : Poss) :
    Nat → Nat → List DRHint
  | 0, _ => []
  | fuel + 1, i =>
    if i < List.length p.filled then
      let i1 := skipUndecGo p.filled p.crossed (List.length p.filled) i
      if List.length p.crossed ≤ i1 then []
      else if bitGet p.filled i1 then
        let i2 := skipTrueGo (List.length l) p.filled (List.length l) i1
        let numbers :=
          List.map
            (fun j => bitGet p.cell_numbers (i1 * List.length clue + j))
            (List.range (List.length clue))
        (if drCheck (DRHint.filledRun i1 i2 numbers) l then
          [DRHint.filledRun i1 i2 numbers]
        else []) ++ drHintsGo l clue p fuel i2
      else
        let i2 := skipTrueGo (List.length l) p.crossed (List.length l) i1
        (if drCheck (DRHint.crossedRun i1 i2) l then
          [DRHint.crossedRun i1 i2]
        else []) ++ drHintsGo l clue p fuel i2
    else []

/-- DiscreteRangePass::run. -/
def discreteRangePassRun (clue : List Nat) (l : LineData) : List DRHint :=
  match discreteSolve l clue with
  | p => drHintsGo l clue p (List.length p.filled + 1) 0

/-!  Lemmas for the DiscreteRange mask invariant (claim C1). -/

theorem bitGet_of_length_le {v : List Bool} {j : Nat}
    (h : List.length v ≤ j) : bitGet v j = false := by
  unfold bitGet
  rw [List.get?_eq_getElem?, List.getElem?_eq_none (by omega)]

theorem bitGet_set (v : List Bool) (i : Nat) (val : Bool) (j : Nat) :
    bitGet (List.set v i val) j =
      if i = j ∧ j < List.length v then val else bitGet v j := by
  unfold bitGet
  rw [List.get?_eq_getElem?, List.get?_eq_getElem?, List.getElem?_set]
  by_cases h : i = j
  · subst h
    by_cases h2 : i < List.length v
    · simp [h2]
    · have hnone : v[i]? = none := List.getElem?_eq_none (by omega)
      simp [h2, hnone]
  · simp [h]

theorem foldlSet_length (val : Bool) (js : List Nat) (v : List Bool) :
    List.length (List.foldl (fun acc i => List.set acc i val) v js) =
      List.length v := by
  induction js generalizing v with
  | nil => rfl
  | cons j0 rest ih =>
    simp only [List.foldl_cons]
    rw [ih, List.length_set]

theorem foldlSet_get (val : Bool) (js : List Nat) (v : List Bool) (j : Nat) :
    bitGet (List.foldl (fun acc i => List.set acc i val) v js) j =
      if j ∈ js ∧ j < List.length v then val else bitGet v j := by
  induction js generalizing v with
  | nil => simp
  | cons j0 rest ih =>
    simp only [List.foldl_cons]
    rw [ih, List.length_set, bitGet_set]
    by_cases h1 : j ∈ rest
    · by_cases h2 : j < List.length v
      · simp [h1, h2]
      · simp [h1, h2]
    · by_cases h0 : j0 = j
      · subst h0
        by_cases h2 : j0 < List.length v
        · simp [h1, h2]
        · simp [h1, h2]
      · have hne : j ≠ j0 := fun hh => h0 hh.symm
        have hnm : ¬ j ∈ j0 :: rest := by
          simp [List.mem_cons, h1, hne]
        simp [h0, h1, hnm]

theorem bitsSetRange_length (v : List Bool) (a b : Nat) (val : Bool) :
    List.length (bitsSetRange v a b val) = List.length v :=
  foldlSet_length val (idxRange a b) v

theorem bitsSetRange_get (v : List Bool) (a b : Nat) (val : Bool) (j : Nat) :
    bitGet (bitsSetRange v a b val) j =
      if (a ≤ j ∧ j < b) ∧ j < List.length v then val else bitGet v j := by
  unfold bitsSetRange
  rw [foldlSet_get]
  by_cases h1 : a ≤ j ∧ j < b
  · by_cases h2 : j < List.length v
    · simp [mem_idxRange, h1, h2]
    · simp [mem_idxRange, h1, h2]
  · have : ¬ j ∈ idxRange a b := fun hm => h1 (mem_idxRange.mp hm)
    simp [this, h1]

/-- Ordering segments of a placement: ChainSeg lo ps cl nx says positions ps
for numbers cl start at or after lo, keep a gap of at least one cell between
consecutive runs, and the next admissible start after the segment is nx. -/
inductive ChainSeg : Nat → List Nat → List Nat → Nat → Prop where
  | nil (lo : Nat) : ChainSeg lo [] [] lo
  | cons {lo s n nx : Nat} {ps cl : List Nat} (h1 : lo ≤ s)
      (h2 : ChainSeg (s + n + 1) ps cl nx) : ChainSeg lo (s :: ps) (n :: cl) nx

theorem chainSeg_snoc {lo nx s n : Nat} {ps cl : List Nat}
    (h : ChainSeg lo ps cl nx) (hs : nx ≤ s) :
    ChainSeg lo (ps ++ [s]) (cl ++ [n]) (s + n + 1) := by
  induction h with
  | nil lo => exact ChainSeg.cons hs (ChainSeg.nil _)
  | cons h1 h2 ih => exact ChainSeg.cons h1 (ih hs)

theorem pCount_cell (st : PState) (c : RCell) :
    pCount (pStateCell st c) ≤ pCount st + 1 := by
  cases st <;> cases c <;> simp [pStateCell, pCount]

theorem pCount_pGuard (n : Nat) (st : PState) :
    pCount (pGuard n st) ≤ pCount st := by
  cases st with
  | pFilled m nn =>
    by_cases hm : n < m
    · simp [pGuard, hm, pCount]
    · simp [pGuard, hm]
  | pEmpty nn => simp [pGuard]
  | pEnd => simp [pGuard]

theorem pEmit_le {n : Nat} {st : PState} (h : pEmit n st = true) :
    n ≤ pCount st := by
  cases st with
  | pFilled m nn => simp [pEmit] at h; simp [pCount, h]
  | pEmpty nn => simp [pEmit] at h; simp [pCount, h]
  | pEnd => simp [pEmit] at h

theorem iterScanGo_ge {l : LineData} {n : Nat} :
    ∀ (k focus : Nat) (st : PState) (lo : Nat),
    lo + pCount st ≤ focus →
    ∀ s ∈ iterScanGo l n k focus st, lo ≤ s := by
  intro k
  induction k with
  | zero =>
    intro focus st lo hc s hs
    cases hs
  | succ k ih =>
    intro focus st lo hc s hs
    have hcnt : pCount (pGuard n (pStateCell st (getCell l focus))) ≤
        pCount st + 1 :=
      Nat.le_trans (pCount_pGuard n (pStateCell st (getCell l focus)))
        (pCount_cell st (getCell l focus))
    unfold iterScanGo at hs
    by_cases hemit : (pEmit n (pGuard n (pStateCell st (getCell l focus))) &&
        (decide (List.length l ≤ focus + 1) ||
          ! isFilledB l (focus + 1))) = true
    · rw [if_pos hemit] at hs
      rcases List.mem_cons.mp hs with he | hs'
      · subst he
        have hn : n ≤ pCount (pGuard n (pStateCell st (getCell l focus))) :=
          pEmit_le (by
            have := hemit
            rw [Bool.and_eq_true] at this
            exact this.1)
        omega
      · exact ih (focus + 1) (pGuard n (pStateCell st (getCell l focus))) lo
          (by omega) s hs'
    · rw [if_neg hemit] at hs
      exact ih (focus + 1) (pGuard n (pStateCell st (getCell l focus))) lo
        (by omega) s hs

theorem iterStarts_ge {l : LineData} {n start : Nat} :
    ∀ s ∈ iterStarts l n start, start ≤ s := by
  intro s hs
  exact iterScanGo_ge (List.length l - start) start (PState.pEmpty 0) start
    (by simp [pCount]) s hs

/-- Membership of cell j in some run of placement ps with numbers cl. -/
def coveredB : List Nat → List Nat → Nat → Bool
  | s :: ps, n :: cl, j =>
    (decide (s ≤ j) && decide (j < s + n)) || coveredB ps cl j
  | _, _, _ => false

theorem coveredB_lt {lo nx j : Nat} {ps cl : List Nat}
    (h : ChainSeg lo ps cl nx) (hj : j < lo) : coveredB ps cl j = false := by
  induction h with
  | nil lo => rfl
  | @cons lo s n nx ps cl h1 h2 ih =>
    unfold coveredB
    rw [ih (by omega)]
    have hns : ¬ s ≤ j := by omega
    simp [hns]

theorem foldl_placements_chain (l : LineData) :
    ∀ (rest pre : List Nat) (acc : List (List Nat × Nat)),
    (∀ pc ∈ acc, ChainSeg 0 pc.1 pre pc.2) →
    ∀ pc ∈ List.foldl (placementsStep l) acc rest,
      ChainSeg 0 pc.1 (pre ++ rest) pc.2 := by
  intro rest
  induction rest with
  | nil =>
    intro pre acc hacc pc hpc
    simpa using hacc pc hpc
  | cons n rest' ih =>
    intro pre acc hacc pc hpc
    have hstep : ∀ pc' ∈ placementsStep l acc n,
        ChainSeg 0 pc'.1 (pre ++ [n]) pc'.2 := by
      intro pc' hpc'
      rcases List.mem_flatMap.mp hpc' with ⟨pc0, hpc0, hmem⟩
      rcases List.mem_map.mp hmem with ⟨s, hsmem, hse⟩
      subst hse
      exact chainSeg_snoc (hacc pc0 hpc0) (iterStarts_ge s hsmem)
    have := ih (pre ++ [n]) (placementsStep l acc n) hstep pc
      (by simpa using hpc)
    simpa using this

theorem placements_chain (l : LineData) (clue : List Nat) :
    ∀ p ∈ discretePlacements l clue, ∃ nx, ChainSeg 0 p clue nx := by
  intro p hp
  unfold discretePlacements at hp
  rcases List.mem_map.mp hp with ⟨pc, hpc, hfst⟩
  rcases List.mem_filter.mp hpc with ⟨hpc', _⟩
  refine ⟨pc.2, ?_⟩
  rw [← hfst]
  have := foldl_placements_chain l clue [] [([], 0)]
    (by
      intro pc0 hpc0
      rcases List.mem_singleton.mp hpc0 with rfl
      exact ChainSeg.nil 0) pc hpc'
  simpa using this

theorem posUpdateGo_spec (k : Nat) {lo nx : Nat} {ps cl : List Nat}
    (h : ChainSeg lo ps cl nx) :
    ∀ (i oldEnd : Nat) (f c cn : List Bool), oldEnd ≤ lo →
    List.length (posUpdateGo k i oldEnd f c cn ps cl).1 = List.length f ∧
    List.length (posUpdateGo k i oldEnd f c cn ps cl).2.1 = List.length c ∧
    (∀ j, j < List.length f →
      bitGet (posUpdateGo k i oldEnd f c cn ps cl).1 j =
        (bitGet f j && (decide (j < oldEnd) || coveredB ps cl j))) ∧
    (∀ j, bitGet (posUpdateGo k i oldEnd f c cn ps cl).2.1 j =
      (bitGet c j && ! coveredB ps cl j)) := by
  induction h with
  | nil lo =>
    intro i oldEnd f c cn hoe
    refine ⟨bitsSetRange_length f oldEnd (List.length f) false, rfl,
      fun j hj => ?_, fun j => ?_⟩
    · show bitGet (bitsSetRange f oldEnd (List.length f) false) j =
        (bitGet f j && (decide (j < oldEnd) || coveredB [] [] j))
      rw [bitsSetRange_get]
      by_cases hlo : j < oldEnd
      · have hc2 : ¬ (oldEnd ≤ j) := by omega
        simp [coveredB, hlo, hc2]
      · have hcond : ((oldEnd ≤ j ∧ j < List.length f) ∧ j < List.length f) :=
          ⟨⟨by omega, hj⟩, hj⟩
        simp [coveredB, hlo, hcond]
    · show bitGet c j = (bitGet c j && ! coveredB [] [] j)
      simp [coveredB]
  | @cons lo s n nx ps cl h1 h2 ih =>
    intro i oldEnd f c cn hoe
    obtain ⟨ihl1, ihl2, ihf, ihc⟩ := ih (i + 1) (s + n)
      (bitsSetRange f oldEnd s false) (bitsSetRange c s (s + n) false)
      (cellNumbersPut cn k i s n) (by omega)
    have hlf1 : List.length (bitsSetRange f oldEnd s false) = List.length f :=
      bitsSetRange_length f oldEnd s false
    have hlc1 : List.length (bitsSetRange c s (s + n) false) =
        List.length c := bitsSetRange_length c s (s + n) false
    refine ⟨?_, ?_, fun j hj => ?_, fun j => ?_⟩
    · show List.length (posUpdateGo k (i + 1) (s + n)
        (bitsSetRange f oldEnd s false) (bitsSetRange c s (s + n) false)
        (cellNumbersPut cn k i s n) ps cl).1 = List.length f
      rw [ihl1, hlf1]
    · show List.length (posUpdateGo k (i + 1) (s + n)
        (bitsSetRange f oldEnd s false) (bitsSetRange c s (s + n) false)
        (cellNumbersPut cn k i s n) ps cl).2.1 = List.length c
      rw [ihl2, hlc1]
    · show bitGet (posUpdateGo k (i + 1) (s + n)
        (bitsSetRange f oldEnd s false) (bitsSetRange c s (s + n) false)
        (cellNumbersPut cn k i s n) ps cl).1 j =
        (bitGet f j && (decide (j < oldEnd) || coveredB (s :: ps) (n :: cl) j))
      rw [ihf j (by rw [hlf1]; exact hj), bitsSetRange_get]
      simp only [coveredB]
      rcases Nat.lt_or_ge j oldEnd with hA | hge
      · have d1 : j < s + n := by omega
        have d2 : ¬ (oldEnd ≤ j) := by omega
        simp [d1, d2, hA]
      · rcases Nat.lt_or_ge j s with hB | hge2
        · have hcv : coveredB ps cl j = false := coveredB_lt h2 (by omega)
          have d2 : ¬ s ≤ j := by omega
          have dnlo : ¬ j < oldEnd := by omega
          simp [hge, hB, hj, hcv, d2, dnlo]
        · rcases Nat.lt_or_ge j (s + n) with hC | hD
          · have d2 : ¬ j < s := by omega
            simp [d2, hge2, hC]
          · have d2 : ¬ j < s := by omega
            have d4 : ¬ j < s + n := by omega
            have dnlo : ¬ j < oldEnd := by omega
            simp [d2, d4, dnlo]
    · show bitGet (posUpdateGo k (i + 1) (s + n)
        (bitsSetRange f oldEnd s false) (bitsSetRange c s (s + n) false)
        (cellNumbersPut cn k i s n) ps cl).2.1 j =
        (bitGet c j && ! coveredB (s :: ps) (n :: cl) j)
      rw [ihc j, bitsSetRange_get]
      simp only [coveredB]
      by_cases hin : s ≤ j ∧ j < s + n
      · by_cases hlen : j < List.length c
        · simp [hin, hlen, hin.1, hin.2]
        · have hz : bitGet c j = false := bitGet_of_length_le (by omega)
          simp [hin, hlen, hz]
      · have hcond : ¬ ((s ≤ j ∧ j < s + n) ∧ j < List.length c) :=
          fun hh => hin hh.1
        rw [if_neg hcond]
        by_cases hs1 : s ≤ j
        · have hs2 : ¬ j < s + n := fun hh => hin ⟨hs1, hh⟩
          simp [hs1, hs2]
        · simp [hs1]

theorem foldl_posUpdate_spec (clue : List Nat) :
    ∀ (pls : List (List Nat)) (p0 : Poss),
    (∀ p ∈ pls, ∃ nx, ChainSeg 0 p clue nx) →
    List.length (List.foldl (posUpdate clue) p0 pls).filled =
      List.length p0.filled ∧
    (∀ j, j < List.length p0.filled →
      bitGet (List.foldl (posUpdate clue) p0 pls).filled j =
        (bitGet p0.filled j && List.all pls (fun p => coveredB p clue j))) ∧
    (∀ j, bitGet (List.foldl (posUpdate clue) p0 pls).crossed j =
      (bitGet p0.crossed j && List.all pls (fun p => ! coveredB p clue j))) := by
  intro pls
  induction pls with
  | nil =>
    intro p0 hch
    refine ⟨rfl, fun j hj => ?_, fun j => ?_⟩ <;> simp
  | cons p rest ih =>
    intro p0 hch
    rcases hch p (List.mem_cons_self p rest) with ⟨nx, hchp⟩
    obtain ⟨hl1, hl2, hf1, hc1⟩ :=
      posUpdateGo_spec (List.length clue) hchp 0 0 p0.filled p0.crossed
        p0.cell_numbers (Nat.le_refl 0)
    have hp1f : (posUpdate clue p0 p).filled =
        (posUpdateGo (List.length clue) 0 0 p0.filled p0.crossed
          p0.cell_numbers p clue).1 := by
      unfold posUpdate
      rfl
    have hp1c : (posUpdate clue p0 p).crossed =
        (posUpdateGo (List.length clue) 0 0 p0.filled p0.crossed
          p0.cell_numbers p clue).2.1 := by
      unfold posUpdate
      rfl
    obtain ⟨ihl, ihf, ihc⟩ := ih (posUpdate clue p0 p)
      (fun q hq => hch q (List.mem_cons_of_mem p hq))
    refine ⟨?_, fun j hj => ?_, fun j => ?_⟩
    · rw [List.foldl_cons] at *
      rw [ihl, hp1f, hl1]
    · rw [List.foldl_cons, ihf j (by rw [hp1f, hl1]; exact hj), hp1f,
        hf1 j hj, List.all_cons]
      have : (decide (j < 0) : Bool) = false := by simp
      rw [this]
      simp [Bool.and_assoc]
    · rw [List.foldl_cons, ihc j, hp1c, hc1 j, List.all_cons]
      simp [Bool.and_assoc]

/-- C1: for every clue and line, after the depth-first enumeration of
complete placements, must_fill holds exactly at the cells filled by every
enumerated placement (the intersection; everything when there are no
placements, since the mask starts all-ones), and must_cross fails exactly at
the cells filled by some enumerated placement, i.e. the complement of
must_cross over [0,N) is the union of the placements' filled-cell sets. -/
theorem discreteRange_masks (clue : List Nat) (l : LineData) (j : Nat)
    (hj : j < List.length l) :
    (bitGet (discreteSolve l clue).filled j = true ↔
      ∀ p ∈ discretePlacements l clue, coveredB p clue j = true) ∧
    (bitGet (discreteSolve l clue).crossed j = false ↔
      ∃ p ∈ discretePlacements l clue, coveredB p clue j = true) := by
  have hch := placements_chain l clue
  obtain ⟨hlen, hfil, hcro⟩ :=
    foldl_posUpdate_spec clue (discretePlacements l clue)
      (possInit (List.length l) (List.length clue)) hch
  have hinitf : bitGet (possInit (List.length l) (List.length clue)).filled
      j = true := by
    unfold possInit bitGet
    rw [List.get?_eq_getElem?]
    simp [List.getElem?_replicate, hj]
  have hinitc : bitGet (possInit (List.length l) (List.length clue)).crossed
      j = true := by
    unfold possInit bitGet
    rw [List.get?_eq_getElem?]
    simp [List.getElem?_replicate, hj]
  have hlenf : List.length
      (possInit (List.length l) (List.length clue)).filled =
        List.length l := by
    unfold possInit
    simp
  constructor
  · rw [show discreteSolve l clue = List.foldl (posUpdate clue)
      (possInit (List.length l) (List.length clue))
      (discretePlacements l clue) from rfl]
    rw [hfil j (by rw [hlenf]; exact hj), hinitf, Bool.true_and]
    exact List.all_eq_true
  · rw [show discreteSolve l clue = List.foldl (posUpdate clue)
      (possInit (List.length l) (List.length clue))
      (discretePlacements l clue) from rfl]
    rw [hcro j, hinitc, Bool.true_and]
    constructor
    · intro hall
      by_contra hno
      push_neg at hno
      have : List.all (discretePlacements l clue)
          (fun p => ! coveredB p clue j) = true := by
        rw [List.all_eq_true]
        intro p hp
        have hnp := hno p hp
        have hfalse : coveredB p clue j = false := by
          cases hcv : coveredB p clue j
          · rfl
          · exact absurd hcv hnp
        simp [hfalse]
      rw [this] at hall
      cases hall
    · rintro ⟨p, hp, hcov⟩
      cases hall : List.all (discretePlacements l clue)
          (fun p => ! coveredB p clue j) with
      | false => rfl
      | true =>
        rw [List.all_eq_true] at hall
        have hk := hall p hp
        rw [hcov] at hk
        cases hk

/-- Witness for C1 at a concrete input (the run2 unit test of the source:
line N = 4 with cell 2 filled, clue [2]; the placements are [1] and [2],
must_fill = {2}, must_cross = {0}): cell 2 is filled by every placement and
cell 2 lies in some placement. -/
theorem discreteRange_masks_witness :
    (2 < List.length [((false : Bool), (false : Bool)), (false, false),
      (true, false), (false, false)]) ∧
    ((bitGet (discreteSolve [(false, false), (false, false), (true, false),
        (false, false)] [2]).filled 2 = true ↔
      ∀ p ∈ discretePlacements [(false, false), (false, false), (true, false),
        (false, false)] [2], coveredB p [2] 2 = true) ∧
    (bitGet (discreteSolve [(false, false), (false, false), (true, false),
        (false, false)] [2]).crossed 2 = false ↔
      ∃ p ∈ discretePlacements [(false, false), (false, false), (true, false),
        (false, false)] [2], coveredB p [2] 2 = true)) :=
  ⟨by decide, discreteRange_masks [2] [(false, false), (false, false),
    (true, false), (false, false)] 2 (by decide)⟩

/-!
Claim C5: hints are single-shot useful.  The three passes emit hints of
three different Rust types; AnyHint is the disjoint union, with check and
apply dispatching to the per-type implementations, and EmittedBy the
predicate that a hint was returned by the corresponding pass run.
-/

inductive AnyHint where
  | crowded (h : CrowdedClue)
  | cont (h : CRHint)
  | disc (h : DRHint)
deriving DecidableEq, Repr

def anyCheck (H : AnyHint) (l : LineData) : Bool :=
  match H with
  | AnyHint.crowded h => crowdedClueCheck h l
  | AnyHint.cont h => crCheck h l
  | AnyHint.disc h => drCheck h l

def anyApplyE (H : AnyHint) (l : LineData) : Except Unit LineData :=
  match H with
  | AnyHint.crowded h => crowdedClueApplyE h l
  | AnyHint.cont h => crApplyE h l
  | AnyHint.disc h => drApplyE h l

/-- The hint H is among the hints returned by the pass it belongs to, run on
clue and line. -/
def EmittedBy (clue : List Nat) (l : LineData) : AnyHint → Prop
  | AnyHint.crowded h =>
    ∃ hs, crowdedCluePassRun clue l = Except.ok hs ∧ h ∈ hs
  | AnyHint.cont h =>
    ∃ hs, continuousRangePassRun clue l = Except.ok hs ∧ h ∈ hs
  | AnyHint.disc h => h ∈ discreteRangePassRun clue l

theorem fillRangeE_unfilled_false {l l' : LineData} {a b : Nat}
    (h : fillRangeE l a b = Except.ok l') :
    rangeContainsUnfilledB l' a b = false := by
  rcases fillRangeE_spec h with ⟨_, _, h3⟩
  rw [rangeContainsUnfilledB_eq_false]
  intro j hja hjb
  rw [h3 j]
  simp [hja, hjb]

theorem crossRangeE_uncrossed_false {l l' : LineData} {a b : Nat}
    (h : crossRangeE l a b = Except.ok l') :
    rangeContainsUncrossedB l' a b = false := by
  rcases crossRangeE_spec h with ⟨_, _, h3⟩
  rw [rangeContainsUncrossedB_eq_false]
  intro j hja hjb
  rw [h3 j]
  simp [hja, hjb]

theorem crossed_mono_unc {l l' : LineData} {a b : Nat}
    (hmono : ∀ j, isCrossedB l j = true → isCrossedB l' j = true)
    (h : rangeContainsUncrossedB l a b = false) :
    rangeContainsUncrossedB l' a b = false := by
  rw [rangeContainsUncrossedB_eq_false] at *
  exact fun j h1 h2 => hmono j (h j h1 h2)

theorem filled_mono_unf {l l' : LineData} {a b : Nat}
    (hmono : ∀ j, isFilledB l j = true → isFilledB l' j = true)
    (h : rangeContainsUnfilledB l a b = false) :
    rangeContainsUnfilledB l' a b = false := by
  rw [rangeContainsUnfilledB_eq_false] at *
  exact fun j h1 h2 => hmono j (h j h1 h2)

/-- C5: for every line, every clue, and every hint emitted by
CrowdedCluePass, ContinuousRangePass or DiscreteRangePass on that line, if
applying the hint succeeds (the Rust apply would panic on an out-of-bounds
write exactly when this errors), then the hint's check on the mutated line
returns false: every emitted hint is single-shot useful. -/
theorem pass_hint_single_shot (clue : List Nat) (l l' : LineData)
    (H : AnyHint) (_hemit : EmittedBy clue l H)
    (happ : anyApplyE H l = Except.ok l') :
    anyCheck H l' = false := by
  cases H with
  | crowded h =>
    exact fillRangeE_unfilled_false happ
  | disc h =>
    cases h with
    | crossedRun s e => exact crossRangeE_uncrossed_false happ
    | filledRun s e numbers => exact fillRangeE_unfilled_false happ
  | cont h =>
    cases h with
    | kernel ks ke => exact fillRangeE_unfilled_false happ
    | unreachable rs re =>
      simp only [anyApplyE, crApplyE, bind, Except.bind] at happ
      cases h1 : crossRangeE l 0 rs with
      | error e => rw [h1] at happ; cases happ
      | ok l1 =>
        rw [h1] at happ
        show crCheck (CRHint.unreachable rs re) l' = false
        simp only [crCheck]
        rcases crossRangeE_spec h1 with ⟨hlen1, hpre1, hc1⟩
        rcases crossRangeE_spec happ with ⟨hlen2, hpre2, hc2⟩
        have e1 : rangeContainsUncrossedB l' 0 rs = false := by
          rw [rangeContainsUncrossedB_eq_false]
          intro j hj0 hjrs
          rw [hc2 j, hc1 j]
          simp [hj0, hjrs]
        have e2 : rangeContainsUncrossedB l' re (List.length l') = false := by
          rw [rangeContainsUncrossedB_eq_false]
          intro j hjre hjlen
          rw [hc2 j]
          have hjl : j < List.length l := by omega
          simp [hjre, hjl]
        rw [e1, e2]
        rfl
    | termination rs re =>
      simp only [anyApplyE, crApplyE, bind, Except.bind] at happ
      show crCheck (CRHint.termination rs re) l' = false
      simp only [crCheck]
      by_cases hrs : 0 < rs
      · rw [if_pos hrs] at happ
        split at happ
        · cases happ
        · rename_i l1 h1
          have hcr1 : isCrossedB l1 (rs - 1) = true := by
            rw [cellCrossE_crossed h1]
            simp
          split at happ
          · rename_i hre
            have hcr2a : isCrossedB l' (rs - 1) = true := by
              rw [cellCrossE_crossed happ, hcr1]
              simp
            have hcr2b : isCrossedB l' re = true := by
              rw [cellCrossE_crossed happ]
              simp
            rw [hcr2a, hcr2b]
            simp
          · rename_i hre
            cases happ
            simp [hcr1, hre]
      · rw [if_neg hrs] at happ
        split at happ
        · rename_i hre
          have hcr2b : isCrossedB l' re = true := by
            rw [cellCrossE_crossed happ]
            simp
          rw [hcr2b]
          simp [hrs]
        · rename_i hre
          cases happ
          simp [hrs, hre]
    | turfNearSingleton fs ks re te =>
      simp only [anyApplyE, crApplyE, bind, Except.bind] at happ
      cases h1 : fillRangeE l fs ks with
      | error e => rw [h1] at happ; cases happ
      | ok l1 =>
        rw [h1] at happ
        show crCheck (CRHint.turfNearSingleton fs ks re te) l' = false
        simp only [crCheck]
        rcases fillRangeE_spec h1 with ⟨hlen1, hcp1, hf1⟩
        rcases crossRangeE_spec happ with ⟨hlen2, hfp2, hc2⟩
        have e1 : rangeContainsUnfilledB l' fs ks = false := by
          rw [rangeContainsUnfilledB_eq_false]
          intro j hja hjb
          rw [hfp2 j, hf1 j]
          simp [hja, hjb]
        have e2 : rangeContainsUncrossedB l' re te = false :=
          crossRangeE_uncrossed_false happ
        rw [e1, e2]
        rfl
    | turfFarSingleton ts rs ke fe =>
      simp only [anyApplyE, crApplyE, bind, Except.bind] at happ
      cases h1 : crossRangeE l ts rs with
      | error e => rw [h1] at happ; cases happ
      | ok l1 =>
        rw [h1] at happ
        show crCheck (CRHint.turfFarSingleton ts rs ke fe) l' = false
        simp only [crCheck]
        rcases crossRangeE_spec h1 with ⟨hlen1, hfp1, hc1⟩
        rcases fillRangeE_spec happ with ⟨hlen2, hcp2, hf2⟩
        have e1 : rangeContainsUncrossedB l' ts rs = false := by
          rw [rangeContainsUncrossedB_eq_false]
          intro j hja hjb
          rw [hcp2 j, hc1 j]
          simp [hja, hjb]
        have e2 : rangeContainsUnfilledB l' ke fe = false :=
          fillRangeE_unfilled_false happ
        rw [e1, e2]
        rfl
    | turfPair ts rs fs fe re te =>
      simp only [anyApplyE, crApplyE, bind, Except.bind] at happ
      cases h1 : crossRangeE l ts rs with
      | error e => rw [h1] at happ; cases happ
      | ok l1 =>
        rw [h1] at happ
        simp only [] at happ
        cases h2 : fillRangeE l1 (fs + 1) (fe - 1) with
        | error e => rw [h2] at happ; cases happ
        | ok l2 =>
          rw [h2] at happ
          simp only [] at happ
          show crCheck (CRHint.turfPair ts rs fs fe re te) l' = false
          simp only [crCheck]
          rcases crossRangeE_spec h1 with ⟨hlen1, hfp1, hc1⟩
          rcases fillRangeE_spec h2 with ⟨hlen2, hcp2, hf2⟩
          rcases crossRangeE_spec happ with ⟨hlen3, hfp3, hc3⟩
          have e1 : rangeContainsUncrossedB l' ts rs = false := by
            rw [rangeContainsUncrossedB_eq_false]
            intro j hja hjb
            rw [hc3 j, hcp2 j, hc1 j]
            simp [hja, hjb]
          have e2 : rangeContainsUnfilledB l' (fs + 1) (fe - 1) = false := by
            rw [rangeContainsUnfilledB_eq_false]
            intro j hja hjb
            rw [hfp3 j, hf2 j]
            simp [hja, hjb]
          have e3 : rangeContainsUncrossedB l' re te = false :=
            crossRangeE_uncrossed_false happ
          rw [e1, e2, e3]
          rfl
    | turfSingleton ts rs re te =>
      simp only [anyApplyE, crApplyE, bind, Except.bind] at happ
      cases h1 : crossRangeE l ts rs with
      | error e => rw [h1] at happ; cases happ
      | ok l1 =>
        rw [h1] at happ
        show crCheck (CRHint.turfSingleton ts rs re te) l' = false
        simp only [crCheck]
        rcases crossRangeE_spec h1 with ⟨hlen1, hfp1, hc1⟩
        rcases crossRangeE_spec happ with ⟨hlen2, hfp2, hc2⟩
        have e1 : rangeContainsUncrossedB l' ts rs = false := by
          rw [rangeContainsUncrossedB_eq_false]
          intro j hja hjb
          rw [hc2 j, hc1 j]
          simp [hja, hjb]
        have e2 : rangeContainsUncrossedB l' re te = false :=
          crossRangeE_uncrossed_false happ
        rw [e1, e2]
        rfl

/-- Witness for C5: clue [1] on the undecided line of length 1 makes
CrowdedCluePass emit CrowdedClue{0,1}; applying it fills cell 0 and the
check then returns false. -/
theorem pass_hint_single_shot_witness :
    EmittedBy [1] [(false, false)] (AnyHint.crowded ⟨0, 1⟩) ∧
    anyApplyE (AnyHint.crowded ⟨0, 1⟩) [(false, false)] =
      Except.ok [(true, false)] ∧
    anyCheck (AnyHint.crowded ⟨0, 1⟩) [(true, false)] = false :=
  ⟨⟨[⟨0, 1⟩], by decide, by decide⟩, by decide,
    pass_hint_single_shot [1] [(false, false)] [(true, false)]
      (AnyHint.crowded ⟨0, 1⟩) ⟨[⟨0, 1⟩], by decide, by decide⟩ (by decide)⟩

/-- C4: the empty clue is legal input (the parser accepts empty clues and the
spec says the whole line must then be crossed), but on any line
ContinuousRangePass::run panics by indexing range_starts[0] of an empty Vec
(the modelled error), and CrowdedCluePass::run underflows sum + k - 1 (a
panic in debug builds); only DiscreteRangePass handles the empty clue,
emitting the CrossedRun hint over the whole line.  Evaluation at the failing
input: the undecided line of length 1. -/
theorem emptyClue_pass_eval :
    continuousRangePassRun [] [(false, false)] = Except.error () ∧
    crowdedCluePassRun [] [(false, false)] = Except.error () ∧
    discreteRangePassRun [] [(false, false)] = [DRHint.crossedRun 0 1] := by
  decide

/-!
Claim C2: grid bit monotonicity (puzzle.rs Grid::fill / Grid::cross through
the HorzLineMut / VertLineMut views).  The grid stores two FixedBitSets of
size width*height; fill and cross only ever call FixedBitSet::put, which
sets a bit.  A hint application is a sequence of fill/cross calls through a
line view, so any sequence of hint applications is a sequence of GridOps.
-/

/-- The puzzle.rs Grid: two bit arrays of size width*height, cell (x,y) at
index y*width + x. -/
structure PGrid where
  width : Nat
  height : Nat
  filled : List Bool
  crossed : List Bool
deriving DecidableEq, Repr

/-- Grid::fill(x, y): put the filled bit (monotone set). -/
def pgFill (g : PGrid) (x y : Nat) : PGrid :=
  { g with filled := List.set g.filled (y * g.width + x) true }

/-- Grid::cross(x, y): put the crossed bit. -/
def pgCross (g : PGrid) (x y : Nat) : PGrid :=
  { g with crossed := List.set g.crossed (y * g.width + x) true }

/-- One grid mutation issued through a line view: HorzLineMut line y writes
cell (i, y), VertLineMut line x writes cell (x, i).  The Bool is the axis
(false = Horz, true = Vert). -/
inductive GridOp where
  | fill (vert : Bool) (line i : Nat)
  | cross (vert : Bool) (line i : Nat)
deriving DecidableEq, Repr

def applyGridOp (g : PGrid) : GridOp → PGrid
  | GridOp.fill false line i => pgFill g i line
  | GridOp.fill true line i => pgFill g line i
  | GridOp.cross false line i => pgCross g i line
  | GridOp.cross true line i => pgCross g line i

def applyGridOps (g : PGrid) (ops : List GridOp) : PGrid :=
  List.foldl applyGridOp g ops

theorem applyGridOp_mono (g : PGrid) (op : GridOp) (idx : Nat) :
    (bitGet g.filled idx = true →
      bitGet (applyGridOp g op).filled idx = true) ∧
    (bitGet g.crossed idx = true →
      bitGet (applyGridOp g op).crossed idx = true) := by
  cases op with
  | fill vert line i =>
    cases vert <;>
      exact ⟨fun h => by
        show bitGet (List.set _ _ true) idx = true
        rw [bitGet_set]
        split <;> simp [h],
      fun h => h⟩
  | cross vert line i =>
    cases vert <;>
      exact ⟨fun h => h,
      fun h => by
        show bitGet (List.set _ _ true) idx = true
        rw [bitGet_set]
        split <;> simp [h]⟩

/-- C2: for every grid and every sequence of fill/cross calls issued through
the line views (hence for every sequence of hint applications), no bit of
either bit array ever transitions from 1 to 0; in particular a cell that is
Impossible (both bits set) stays Impossible forever. -/
theorem grid_bits_monotone (ops : List GridOp) (g : PGrid) (idx : Nat) :
    (bitGet g.filled idx = true →
      bitGet (applyGridOps g ops).filled idx = true) ∧
    (bitGet g.crossed idx = true →
      bitGet (applyGridOps g ops).crossed idx = true) := by
  induction ops generalizing g with
  | nil => exact ⟨fun h => h, fun h => h⟩
  | cons op rest ih =>
    have h1 := applyGridOp_mono g op idx
    have h2 := ih (applyGridOp g op)
    exact ⟨fun h => h2.1 (h1.1 h), fun h => h2.2 (h1.2 h)⟩

/-- Witness for C2: a 1x1 grid with the cell Impossible (both bits set)
stays Impossible after a fill and a cross. -/
theorem grid_bits_monotone_witness :
    bitGet (applyGridOps (PGrid.mk 1 1 [true] [true])
      [GridOp.fill false 0 0, GridOp.cross true 0 0]).filled 0 = true ∧
    bitGet (applyGridOps (PGrid.mk 1 1 [true] [true])
      [GridOp.fill false 0 0, GridOp.cross true 0 0]).crossed 0 = true :=
  ⟨(grid_bits_monotone [GridOp.fill false 0 0, GridOp.cross true 0 0]
      (PGrid.mk 1 1 [true] [true]) 0).1 (by decide),
    (grid_bits_monotone [GridOp.fill false 0 0, GridOp.cross true 0 0]
      (PGrid.mk 1 1 [true] [true]) 0).2 (by decide)⟩

/-!
main.rs: the binary's own Grid with a transposed flag, the Freedom2 pass
(a second implementation of the continuous-range deduction that mutates the
grid as it scans), and the main loop, which runs Freedom2 on both axes
exactly 15 times (for _x in 0..15 { puzzle.apply(&Freedom2) }).  Asserts and
usize underflows are modelled as errors as before.
-/

/-- main.rs Grid. -/
structure MGrid where
  width : Nat
  height : Nat
  filled : List Bool
  crossed : List Bool
deriving DecidableEq, Repr

/-- Grid::index(x, y, transposed), with its asserts. -/
def mIndexE (g : MGrid) (x y : Nat) (t : Bool) : Except Unit Nat :=
  if t then
    if x < g.height ∧ y < g.width then Except.ok (x * g.height + y)
    else Except.error ()
  else
    if x < g.width ∧ y < g.height then Except.ok (y * g.width + x)
    else Except.error ()

def mIsCrossedE (g : MGrid) (x y : Nat) (t : Bool) : Except Unit Bool :=
  match mIndexE g x y t with
  | Except.ok i => Except.ok (bitGet g.crossed i)
  | Except.error e => Except.error e

def mIsFilledE (g : MGrid) (x y : Nat) (t : Bool) : Except Unit Bool :=
  match mIndexE g x y t with
  | Except.ok i => Except.ok (bitGet g.filled i)
  | Except.error e => Except.error e

def mFillE (g : MGrid) (x y : Nat) (t : Bool) : Except Unit MGrid :=
  match mIndexE g x y t with
  | Except.ok i => Except.ok { g with filled := List.set g.filled i true }
  | Except.error e => Except.error e

def mCrossE (g : MGrid) (x y : Nat) (t : Bool) : Except Unit MGrid :=
  match mIndexE g x y t with
  | Except.ok i => Except.ok { g with crossed := List.set g.crossed i true }
  | Except.error e => Except.error e

/-- Grid::fill_horz(xs, y, transposed), structural on the range size. -/
def mFillHorzGo (y : Nat) (t : Bool) : MGrid → Nat → Nat → Except Unit MGrid
  | g, _, 0 => Except.ok g
  | g, a, k + 1 =>
    match mFillE g a y t with
    | Except.ok g1 => mFillHorzGo y t g1 (a + 1) k
    | Except.error e => Except.error e

def mFillHorzE (g : MGrid) (a b y : Nat) (t : Bool) : Except Unit MGrid :=
  mFillHorzGo y t g a (b - a)

def mCrossHorzGo (y : Nat) (t : Bool) : MGrid → Nat → Nat → Except Unit MGrid
  | g, _, 0 => Except.ok g
  | g, a, k + 1 =>
    match mCrossE g a y t with
    | Except.ok g1 => mCrossHorzGo y t g1 (a + 1) k
    | Except.error e => Except.error e

def mCrossHorzE (g : MGrid) (a b y : Nat) (t : Bool) : Except Unit MGrid :=
  mCrossHorzGo y t g a (b - a)

/-- Inner cross-push loop of Freedom2's range_starts
(while x < w && x < x0 + number).  Returns (x0, x). -/
def f2StartScanGo (g : MGrid) (y : Nat) (t : Bool) (w n : Nat) :
    Nat → Nat → Nat → Except Unit (Nat × Nat)
  | 0, x0, x => Except.ok (x0, x)
  | fuel + 1, x0, x =>
    if x < w ∧ x < x0 + n then
      match mIsCrossedE g x y t with
      | Except.error e => Except.error e
      | Except.ok true => f2StartScanGo g y t w n fuel (x + 1) (x + 1)
      | Except.ok false => f2StartScanGo g y t w n fuel x0 (x + 1)
    else Except.ok (x0, x)

/-- Fill-skip loop of Freedom2's range_starts (while x < w && is_filled). -/
def f2FillSkipGo (g : MGrid) (y : Nat) (t : Bool) (w : Nat) :
    Nat → Nat → Except Unit Nat
  | 0, x => Except.ok x
  | fuel + 1, x =>
    if x < w then
      match mIsFilledE g x y t with
      | Except.error e => Except.error e
      | Except.ok true => f2FillSkipGo g y t w fuel (x + 1)
      | Except.ok false => Except.ok x
    else Except.ok x

/-- Per-number loop of Freedom2's range_starts.  Note x0 advances by number,
not number + 1 (unlike ClueExt::range_starts which uses focus + 1). -/
def f2StartsGo (g : MGrid) (y : Nat) (t : Bool) (w : Nat) :
    List Nat → Nat → Except Unit (List Nat)
  | [], _ => Except.ok []
  | n :: rest, x0 =>
    match f2StartScanGo g y t w n (w + n + 1) x0 x0 with
    | Except.error e => Except.error e
    | Except.ok (x0a, x) =>
      match
        (if x < w then
          match mIsFilledE g x y t with
          | Except.error e => Except.error e
          | Except.ok true =>
            match f2FillSkipGo g y t w (w + 1) x with
            | Except.error e => Except.error e
            | Except.ok x' => checkedSub x' n
          | Except.ok false => Except.ok x0a
        else Except.ok x0a) with
      | Except.error e => Except.error e
      | Except.ok x0b =>
        if n ≤ w ∧ x0b ≤ w - n then
          match f2StartsGo g y t w rest (x0b + n) with
          | Except.error e => Except.error e
          | Except.ok rest' => Except.ok (x0b :: rest')
        else Except.error ()

/-- Inner cross-push loop of Freedom2's range_ends
(while x > 0 && x > x1 - number; the subtraction x1 - number is evaluated
each time the left conjunct holds and can underflow).  Returns (x1, x). -/
def f2EndScanGo (g : MGrid) (y : Nat) (t : Bool) (n : Nat) :
    Nat → Nat → Nat → Except Unit (Nat × Nat)
  | 0, x1, x => Except.ok (x1, x)
  | fuel + 1, x1, x =>
    if 0 < x then
      match checkedSub x1 n with
      | Except.error e => Except.error e
      | Except.ok d =>
        if d < x then
          match mIsCrossedE g x y t with
          | Except.error e => Except.error e
          | Except.ok true => f2EndScanGo g y t n fuel x (x - 1)
          | Except.ok false => f2EndScanGo g y t n fuel x1 (x - 1)
        else Except.ok (x1, x)
    else Except.ok (x1, x)

/-- Backward fill-skip loop of Freedom2's range_ends
(while x > 0 && is_filled(x - 1)). -/
def f2BackSkipGo (g : MGrid) (y : Nat) (t : Bool) :
    Nat → Nat → Except Unit Nat
  | 0, x => Except.ok x
  | fuel + 1, x =>
    if 0 < x then
      match mIsFilledE g (x - 1) y t with
      | Except.error e => Except.error e
      | Except.ok true => f2BackSkipGo g y t fuel (x - 1)
      | Except.ok false => Except.ok x
    else Except.ok x

/-- Per-number loop of Freedom2's range_ends over the reversed clue; the
returned list is in push order (end of the last run first). -/
def f2EndsGo (g : MGrid) (y : Nat) (t : Bool) (w : Nat) :
    List Nat → Nat → Except Unit (List Nat)
  | [], _ => Except.ok []
  | n :: rest, x1 =>
    match checkedSub x1 1 with
    | Except.error e => Except.error e
    | Except.ok x1a =>
      match checkedSub x1a 1 with
      | Except.error e => Except.error e
      | Except.ok xinit =>
        match f2EndScanGo g y t n (x1a + 1) x1a xinit with
        | Except.error e => Except.error e
        | Except.ok (x1b, x) =>
          match
            (if 0 < x then
              match mIsFilledE g (x - 1) y t with
              | Except.error e => Except.error e
              | Except.ok true =>
                match f2BackSkipGo g y t (x + 1) x with
                | Except.error e => Except.error e
                | Except.ok x' => Except.ok (x' + n)
              | Except.ok false => Except.ok x1b
            else Except.ok x1b) with
          | Except.error e => Except.error e
          | Except.ok x1c =>
            if x1c ≤ w ∧ n ≤ x1c then
              match f2EndsGo g y t w rest (x1c - n) with
              | Except.error e => Except.error e
              | Except.ok rest' => Except.ok (x1c :: rest')
            else Except.error ()

/-- Forward find of a filled cell in a..b (Freedom2's
(turf_start..kernel_start).find(is_filled)). -/
def mFindFwdGo (g : MGrid) (y : Nat) (t : Bool) :
    Nat → Nat → Except Unit (Option Nat)
  | _, 0 => Except.ok none
  | a, k + 1 =>
    match mIsFilledE g a y t with
    | Except.error e => Except.error e
    | Except.ok true => Except.ok (some a)
    | Except.ok false => mFindFwdGo g y t (a + 1) k

def mFindFilledFwdE (g : MGrid) (a b y : Nat) (t : Bool) :
    Except Unit (Option Nat) :=
  mFindFwdGo g y t a (b - a)

/-- Backward find of a filled cell in a..b (rev().find(is_filled)). -/
def mFindRevGo (g : MGrid) (y : Nat) (t : Bool) :
    Nat → Nat → Except Unit (Option Nat)
  | _, 0 => Except.ok none
  | b, k + 1 =>
    match mIsFilledE g (b - 1) y t with
    | Except.error e => Except.error e
    | Except.ok true => Except.ok (some (b - 1))
    | Except.ok false => mFindRevGo g y t (b - 1) k

def mFindFilledRevE (g : MGrid) (a b y : Nat) (t : Bool) :
    Except Unit (Option Nat) :=
  mFindRevGo g y t b (b - a)

/-- Body of Freedom2's per-run loop for one run, mutating the grid. -/
def f2RunOne (y : Nat) (t : Bool) (w n rs re prev next : Nat) (g : MGrid) :
    Except Unit MGrid :=
  if rs + n ≤ re then
    let ts := max prev rs
    let te := min re next
    if re = rs + n then do
      let g1 ← if 0 < rs then mCrossE g (rs - 1) y t else Except.ok g
      let g2 ← mFillHorzE g1 rs re y t
      if re < w then mCrossE g2 re y t else Except.ok g2
    else if re < rs + 2 * n then do
      let ks := re - n
      let ke := rs + n
      let g1 ← mFillHorzE g ks ke y t
      let x0opt ← mFindFilledFwdE g1 ts ks y t
      let g2 ←
        match x0opt with
        | some x0 => do
          let ga ← mFillHorzE g1 x0 ks y t
          mCrossHorzE ga (x0 + n) te y t
        | none => Except.ok g1
      let x1opt ← mFindFilledRevE g2 ke te y t
      match x1opt with
      | some x1 => do
        let gb ← mFillHorzE g2 ke x1 y t
        let d ← checkedSub x1 n
        mCrossHorzE gb ts d y t
      | none => Except.ok g2
    else do
      let x0opt ← mFindFilledFwdE g ts te y t
      match x0opt with
      | some x0 => do
        let g1 ← mCrossHorzE g (x0 + n) te y t
        let g2 ← mCrossHorzE g1 ts (max (x0 + 1) n - n) y t
        let x1opt ← mFindFilledRevE g2 x0 te y t
        match x1opt with
        | some x1 => do
          let g3 ← mFillHorzE g2 (x0 + 1) x1 y t
          mCrossHorzE g3 ts (max x1 n - n) y t
        | none => mCrossHorzE g2 ts (max x0 n - n) y t
      | none => Except.ok g
  else Except.error ()

/-- The per-run loop of Freedom2 over the five zipped sequences. -/
def f2RunLoop (y : Nat) (t : Bool) (w : Nat) :
    List Nat → List Nat → List Nat → List Nat → List Nat → MGrid →
      Except Unit MGrid
  | n :: ns, rs :: rss, re :: res, pv :: pvs, nx :: nxs, g =>
    match f2RunOne y t w n rs re pv nx g with
    | Except.error e => Except.error e
    | Except.ok g1 => f2RunLoop y t w ns rss res pvs nxs g1
  | _, _, _, _, _, g => Except.ok g

/-- Freedom2 on one line: compute range_starts and range_ends (reading the
grid before any mutation of this line), cross the unreachable borders, then
run the per-run loop, which reads and writes the grid as it goes. -/
def freedom2Line (w : Nat) (t : Bool) (y : Nat) (clue : List Nat)
    (g : MGrid) : Except Unit MGrid :=
  match f2StartsGo g y t w clue 0 with
  | Except.error e => Except.error e
  | Except.ok rss =>
    match f2EndsGo g y t w (List.reverse clue) (w + 1) with
    | Except.error e => Except.error e
    | Except.ok resStored =>
      match rss, resStored with
      | rs0 :: _, re0 :: _ =>
        (match mCrossHorzE g 0 rs0 y t with
        | Except.error e => Except.error e
        | Except.ok g1 =>
          match mCrossHorzE g1 re0 w y t with
          | Except.error e => Except.error e
          | Except.ok g2 =>
            let fEnds := List.reverse resStored
            let prevs := 0 :: fEnds
            let nexts := List.drop 1 rss ++ [w]
            f2RunLoop y t w clue rss fEnds prevs nexts g2)
      | _, _ => Except.error ()

/-- main.rs Puzzle: the two clue lists and the grid. -/
structure MPuzzle where
  vert : List (List Nat)
  horz : List (List Nat)
  grid : MGrid
deriving DecidableEq, Repr

/-- Clues::width(transposed). -/
def mcWidth (p : MPuzzle) (t : Bool) : Nat :=
  if t then List.length p.horz else List.length p.vert

/-- Clues::horz(transposed): the clues iterated by Pass::run. -/
def mcHorz (p : MPuzzle) (t : Bool) : List (List Nat) :=
  if t then p.vert else p.horz

/-- The line loop of Freedom2::run over (y, clue). -/
def freedom2LinesGo (t : Bool) (w : Nat) :
    List (List Nat) → Nat → MGrid → Except Unit MGrid
  | [], _, g => Except.ok g
  | clue :: rest, y, g =>
    match freedom2Line w t y clue g with
    | Except.error e => Except.error e
    | Except.ok g1 => freedom2LinesGo t w rest (y + 1) g1

/-- Freedom2's Pass::run(puzzle, transposed). -/
def freedom2Run (p : MPuzzle) (t : Bool) : Except Unit MGrid :=
  freedom2LinesGo t (mcWidth p t) (mcHorz p t) 0 p.grid

/-- Puzzle::apply(&Freedom2): run on the vertical axis (transposed = true)
then on the horizontal axis. -/
def mApplyBothE (p : MPuzzle) : Except Unit MPuzzle :=
  match freedom2Run p true with
  | Except.error e => Except.error e
  | Except.ok g1 =>
    match freedom2Run { p with grid := g1 } false with
    | Except.error e => Except.error e
    | Except.ok g2 => Except.ok { p with grid := g2 }

/-- The main loop: for _x in 0..15 { puzzle.apply(&Freedom2) }, counting the
rounds actually executed. -/
def mainLoopE : Nat → MPuzzle → Except Unit (MPuzzle × Nat)
  | 0, p => Except.ok (p, 0)
  | k + 1, p =>
    match mApplyBothE p with
    | Except.error e => Except.error e
    | Except.ok p1 =>
      match mainLoopE k p1 with
      | Except.error e => Except.error e
      | Except.ok (p2, n) => Except.ok (p2, n + 1)

/-- Puzzle::is_complete of puzzle.rs, on the main.rs grid: every cell has a
bit set. -/
def mGridComplete (g : MGrid) : Bool :=
  List.all (List.range (List.length g.filled))
    (fun i => bitGet g.filled i || bitGet g.crossed i)

/-- Index of cell i of line j of the given axis in the main.rs grid
(HorzLine y: cell x at y*width + x; VertLine x: cell y at y*width + x). -/
def gridLineIdx (g : MGrid) (t : Bool) (j i : Nat) : Nat :=
  if t then i * g.width + j else j * g.width + i

/-- The line view of the grid used by the puzzle.rs pass driver. -/
def lineOfGrid (g : MGrid) (t : Bool) (j : Nat) : LineData :=
  List.map
    (fun i => (bitGet g.filled (gridLineIdx g t j i),
      bitGet g.crossed (gridLineIdx g t j i)))
    (List.range (if t then g.height else g.width))

/-- Write a line view back into the grid (the LineMut mutations of a hint
apply only touch cells of that line, so writing the mutated line back is the
same grid mutation). -/
def storeLine (g : MGrid) (t : Bool) (j : Nat) (ld : LineData) : MGrid :=
  List.foldl
    (fun acc i =>
      { acc with
        filled := List.set acc.filled (gridLineIdx g t j i) (isFilledB ld i),
        crossed :=
          List.set acc.crossed (gridLineIdx g t j i) (isCrossedB ld i) })
    g (List.range (List.length ld))

/-- Collection phase of LinePassExt::run for ContinuousRangePass on one
axis: run the pass on every line of the axis against the unmutated grid. -/
def contCollectGo (g : MGrid) (t : Bool) :
    List (List Nat) → Nat → Except Unit (List (Nat × CRHint))
  | [], _ => Except.ok []
  | clue :: rest, y =>
    match continuousRangePassRun clue (lineOfGrid g t y) with
    | Except.error e => Except.error e
    | Except.ok hs =>
      match contCollectGo g t rest (y + 1) with
      | Except.error e => Except.error e
      | Except.ok r => Except.ok (List.map (fun h => (y, h)) hs ++ r)

/-- Application phase of LinePassExt::apply: apply every collected hint to
its line, in list order. -/
def contApplyHintsGo (t : Bool) :
    List (Nat × CRHint) → MGrid → Except Unit MGrid
  | [], g => Except.ok g
  | (y, h) :: rest, g =>
    match crApplyE h (lineOfGrid g t y) with
    | Except.error e => Except.error e
    | Except.ok ld => contApplyHintsGo t rest (storeLine g t y ld)

/-- Running ContinuousRangePass on every line of one axis of a main.rs
puzzle and applying all returned hints (the driver of puzzle.rs). -/
def contPassAxisE (p : MPuzzle) (t : Bool) : Except Unit MGrid :=
  match contCollectGo p.grid t (mcHorz p t) 0 with
  | Except.error e => Except.error e
  | Except.ok hs => contApplyHintsGo t hs p.grid

/-- The 3x1 puzzle with row clue [1,1] and empty grid. -/
def cluePairPuzzle : MPuzzle :=
  ⟨[[1], [], [1]], [[1, 1]],
    ⟨3, 1, [false, false, false], [false, false, false]⟩⟩

/-- C10 counterexample: on the 3x1 puzzle with row clue [1,1] and empty
grid, running Freedom2 on the horizontal axis does not produce the same
grid as running ContinuousRangePass on each line of that axis and applying
all returned hints: Freedom2 enumerates candidate starts advancing by c_i
instead of c_i + 1, computes range_starts = [0, 1] instead of [0, 2], and
leaves cell 2 undecided, while the pass fills cells 0 and 2 and crosses
cell 1. -/
theorem freedom2_vs_contPass_cex :
    freedom2Run cluePairPuzzle false ≠ contPassAxisE cluePairPuzzle false := by
  decide

/-- C10 amended: the two implementations of the continuous-range algorithm
are not equivalent as grid transformations.  On the 3x1 puzzle with row clue
[1,1], Freedom2 on the horizontal axis yields filled = {0}, crossed = {1}
(cell 2 undecided), whereas ContinuousRangePass with all hints applied
yields filled = {0, 2}, crossed = {1}; the two final grids differ at
cell 2. -/
theorem freedom2_vs_contPass_actual :
    freedom2Run cluePairPuzzle false =
      Except.ok ⟨3, 1, [true, false, false], [false, true, false]⟩ ∧
    contPassAxisE cluePairPuzzle false =
      Except.ok ⟨3, 1, [true, false, true], [false, true, false]⟩ ∧
    (⟨3, 1, [true, false, false], [false, true, false]⟩ : MGrid) ≠
      ⟨3, 1, [true, false, true], [false, true, false]⟩ := by
  decide

/-- The already-complete 1x1 puzzle (clue [1] on both axes, cell filled). -/
def completeOnePuzzle : MPuzzle := ⟨[[1]], [[1]], ⟨1, 1, [true], [false]⟩⟩

/-- C7 counterexample: the solver loop of main.rs does not terminate when
the grid is complete (and there is no pass index cur_p at all): on the
already complete 1x1 puzzle it still executes all 15 rounds of Freedom2 on
both axes. -/
theorem main_loop_ignores_completion_cex :
    mGridComplete completeOnePuzzle.grid = true ∧
    mainLoopE 15 completeOnePuzzle =
      Except.ok (completeOnePuzzle, 15) ∧ (15 : Nat) ≠ 0 := by
  decide

theorem mainLoopE_rounds :
    ∀ (k : Nat) (p q : MPuzzle) (n : Nat),
    mainLoopE k p = Except.ok (q, n) → n = k := by
  intro k
  induction k with
  | zero =>
    intro p q n h
    cases h
    rfl
  | succ k ih =>
    intro p q n h
    unfold mainLoopE at h
    cases h1 : mApplyBothE p with
    | error e => rw [h1] at h; cases h
    | ok p1 =>
      rw [h1] at h
      simp only [] at h
      cases h2 : mainLoopE k p1 with
      | error e => rw [h2] at h; cases h
      | ok pr =>
        rw [h2] at h
        cases h
        rw [ih p1 pr.1 pr.2 (by rw [h2])]

/-- C7 amended: the solver loop of main.rs is for _x in 0..15
{ puzzle.apply(&Freedom2) }: whenever it finishes without a panic it has
executed exactly 15 rounds of Freedom2 on both axes, unconditionally — it
never checks grid completion, and no pass index cur_p or promotion exists in
the code. -/
theorem main_loop_always_15 (p q : MPuzzle) (n : Nat)
    (h : mainLoopE 15 p = Except.ok (q, n)) : n = 15 :=
  mainLoopE_rounds 15 p q n h

/-- Witness for C7 amended at the complete 1x1 puzzle. -/
theorem main_loop_always_15_witness :
    mainLoopE 15 completeOnePuzzle = Except.ok (completeOnePuzzle, 15) ∧
    (15 : Nat) = 15 :=
  ⟨by decide, main_loop_always_15 completeOnePuzzle completeOnePuzzle 15
    (by decide)⟩
